import Mathlib

/-!
Verification of the Tgbot repository (a Telegram book-search bot written in Go)
against its natural-language specification.

The Go code is shallowly embedded: Go strings become `List Char` (UTF-8 byte
comparison on Go strings coincides with code-point lexicographic comparison,
since UTF-8 preserves code-point order), Go slices become `List`, machine
integers become `Nat`/`Int` (all the quantities involved stay far below 2^63,
and the few places where overflow could matter are noted), and side effects
(file system, data base, Telegram API calls) become explicit state passing or
event traces.

Sources embedded here:
  * internal/telegram/bot.go   (pagination, callbacks, book details, buttons)
  * internal/storage/books.go  (SaveBookFile, randomHex)
  * internal/db/store.go       (AddToLibrary over the user_library table)
  * the service layer          (FlibustaClient.Search retry loop)
  * Go 1.24 standard library   (sort.Slice / pdqsort, strings and strconv
                                helpers, path/filepath Ext) — the repository
                                is built with the golang:1.24 image.
-/

namespace Tgbot

/-- Go strings are modelled as lists of characters. -/
abbrev GoStr := List Char

/-! ## Go standard library string helpers -/

/-- Go string comparison `s < t` (lexicographic on bytes; on our model,
lexicographic on code points, which is the same order for UTF-8). -/
def goStrLt : GoStr → GoStr → Bool
  | _, [] => false
  | [], _ :: _ => true
  | a :: as, b :: bs =>
    if a.toNat < b.toNat then true
    else if b.toNat < a.toNat then false
    else goStrLt as bs

/-- Case mapping used by `strings.ToUpper` / `strings.EqualFold`,
restricted to the character ranges that occur in this program
(ASCII letters and the Russian alphabet). -/
def goUpChar (c : Char) : Char :=
  if 'a' ≤ c ∧ c ≤ 'z' then Char.ofNat (c.toNat - 32)
  else if 'а' ≤ c ∧ c ≤ 'я' then Char.ofNat (c.toNat - 32)
  else if c = 'ё' then 'Ё'
  else c

/-- Embedding of `strings.ToUpper`. -/
def goToUpper (s : GoStr) : GoStr := s.map goUpChar

/-- White space characters recognised by `unicode.IsSpace` that can occur in
ASCII text (the labels this program trims are parsed from HTML text). -/
def goIsSpace (c : Char) : Bool :=
  c = ' ' ∨ c = '\t' ∨ c = '\n' ∨ c = '\x0b' ∨ c = '\x0c' ∨ c = '\r'

/-- Embedding of `strings.TrimSpace`. -/
def goTrimSpace (s : GoStr) : GoStr :=
  ((s.dropWhile goIsSpace).reverse.dropWhile goIsSpace).reverse

/-- Embedding of `strings.HasPrefix`. -/
def goStartsWith : GoStr → GoStr → Bool
  | _, [] => true
  | [], _ :: _ => false
  | c :: cs, p :: ps => c = p ∧ goStartsWith cs ps

/-- Embedding of `strings.TrimPrefix` (the callers below only use it after a
successful `strings.HasPrefix` test, where it drops the prefix). -/
def goDropStart (s p : GoStr) : GoStr :=
  if goStartsWith s p then s.drop p.length else s

/-- Embedding of `strings.EqualFold` on the character ranges of `goUpChar`. -/
def goEqualFold (s t : GoStr) : Bool :=
  goToUpper s = goToUpper t

/-- Does `needle` occur at the front of `haystack`. -/
def goSubAt (haystack needle : GoStr) : Bool := goStartsWith haystack needle

/-- Embedding of `strings.Contains`. -/
def goContains : GoStr → GoStr → Bool
  | h, n => if goSubAt h n then true else
    match h with
    | [] => false
    | _ :: t => goContains t n

/-- Embedding of `strings.SplitN(s, ":", 2)`: `none` if `s` has no colon,
otherwise the two parts around the first colon. -/
def goSplit2 (s : GoStr) : Option (GoStr × GoStr) :=
  match s with
  | [] => none
  | c :: t => if c = ':' then some ([], t) else
    match goSplit2 t with
    | none => none
    | some (x, y) => some (c :: x, y)

/-- Decimal digits of a natural number, via core `Nat.toDigits`. -/
def natToStr (n : Nat) : GoStr := Nat.toDigits 10 n

def goIsDigit (c : Char) : Bool := '0' ≤ c ∧ c ≤ '9'

/-- Embedding of `strconv.Atoi`: optional sign, at least one digit, nothing
else, and the value must fit in a 64-bit int (`ErrRange` otherwise). -/
def goAtoiDigits : GoStr → Option Nat
  | [] => none
  | [c] => if goIsDigit c then some (c.toNat - 48) else none
  | c :: cs =>
    if goIsDigit c then
      match goAtoiDigits cs with
      | none => none
      | some n => some ((c.toNat - 48) * 10 ^ cs.length + n)
    else none

def goAtoi (s : GoStr) : Option Int :=
  match s with
  | '+' :: rest =>
    match goAtoiDigits rest with
    | none => none
    | some n => if (n : Int) ≤ 2 ^ 63 - 1 then some (n : Int) else none
  | '-' :: rest =>
    match goAtoiDigits rest with
    | none => none
    | some n => if (n : Int) ≤ 2 ^ 63 then some (-(n : Int)) else none
  | _ =>
    match goAtoiDigits s with
    | none => none
    | some n => if (n : Int) ≤ 2 ^ 63 - 1 then some (n : Int) else none

/-! ## Data model (internal/models) -/

/-- Embedding of `models.Book`. -/
structure Book where
  id : GoStr
  title : GoStr
  author : GoStr
deriving DecidableEq, Repr

/-- Embedding of `models.BookFormatOption`. -/
structure BookFormatOption where
  path : GoStr
  label : GoStr
deriving DecidableEq, Repr

/-- An inline keyboard button: `tgbotapi.NewInlineKeyboardButtonData(text, data)`. -/
structure Btn where
  text : GoStr
  data : GoStr
deriving DecidableEq, Repr

/-! ## Pagination (internal/telegram/bot.go, clampPage / totalPages / buildPage) -/

/-- Embedding of `clampPage` (bot.go:137-148).  Go `int` becomes `Int`. -/
def clampPage (page totalPages : Int) : Int :=
  if totalPages ≤ 0 then 0
  else if page < 0 then 0
  else if page ≥ totalPages then totalPages - 1
  else page

/-- Embedding of `totalPages` (bot.go:150-155).  Both arguments are
non-negative in every call (`total = len(session.books)`,
`pageSize = defaultPageSize = 10`), so `Nat` with truncating division is
faithful to Go's `int` division here. -/
def totalPagesGo (total pageSize : Nat) : Nat :=
  if total = 0 then 0 else (total + pageSize - 1) / pageSize

/-- The page index and visible slice computed by `buildPage` (bot.go:178-190):
`pages := totalPages(total, pageSize)`, `page := clampPage(page, pages)`,
`start := page*pageSize`, `end := min(start+pageSize, total)`,
slice `books[start:end]`. -/
def pageSlice (books : List Book) (pageSize : Nat) (req : Int) : Nat × List Book :=
  let total := books.length
  let pages := totalPagesGo total pageSize
  let page := (clampPage req (pages : Int)).toNat
  let start := page * pageSize
  let stop := min (start + pageSize) total
  (page, (books.drop start).take (stop - start))

/-- Book rows of `buildPage`: one button per book,
text `"%s - %s" (title, author)`, payload `cbBookPrefix + book.ID`. -/
def bookRow (b : Book) : List Btn :=
  [⟨b.title ++ (" - ".data) ++ b.author, ("book:".data) ++ b.id⟩]

/-- The `"⬅️"` button of the navigation row (payload `page:<page-1>`). -/
def prevBtn (page : Nat) : Btn :=
  ⟨"⬅️".data, ("page:".data) ++ natToStr (page - 1)⟩

/-- The central `"• page+1/pages •"` indicator button of the navigation row. -/
def centerBtn (page pages : Nat) : Btn :=
  ⟨("• ".data) ++ natToStr (page + 1) ++ ("/".data) ++ natToStr pages ++ (" •".data),
   ("page:".data) ++ natToStr page⟩

/-- The `"➡️"` button of the navigation row (payload `page:<page+1>`). -/
def nextBtn (page : Nat) : Btn :=
  ⟨"➡️".data, ("page:".data) ++ natToStr (page + 1)⟩

/-- The navigation row built by `buildPage` (bot.go:197-217) when `pages > 1`. -/
def navRow (page pages : Nat) : List Btn :=
  (if 0 < page then [prevBtn page] else []) ++ [centerBtn page pages] ++
    (if page < pages - 1 then [nextBtn page] else [])

/-- Embedding of `buildPage` (bot.go:172-229).  Returns `none` when the chat
has no session or the session is empty (the `!ok || len == 0` guard);
otherwise the clamped page, the visible slice and the keyboard rows. -/
def buildPageGo (books : List Book) (pageSize : Nat) (req : Int) :
    Option (Nat × List Book × List (List Btn)) :=
  if books.isEmpty then none
  else
    let total := books.length
    let pages := totalPagesGo total pageSize
    let ps := pageSlice books pageSize req
    some (ps.1, ps.2,
      ps.2.map bookRow ++ (if 1 < pages then [navRow ps.1 pages] else []))

/-! ## Storage (internal/storage/books.go) -/

/-- Embedding of `filepath.Ext` on Linux (`os.IsPathSeparator c ↔ c = '/'`):
scan from the end of the path, return the suffix starting at the last dot of
the final path element, empty if a separator is met first or no dot exists. -/
def goExtAux : List Char → List Char → GoStr
  | [], _ => []
  | c :: rest, acc =>
    if c = '/' then []
    else if c = '.' then '.' :: acc
    else goExtAux rest (c :: acc)

def goExt (name : GoStr) : GoStr := goExtAux name.reverse []

/-- One byte printed by `fmt.Sprintf("%x", buf)`: two lowercase hex digits. -/
def hexDigit (d : Nat) : Char := "0123456789abcdef".data.getD (d % 16) '0'

/-- Embedding of `randomHex(16)`'s formatting (`fmt.Sprintf("%x", buf)`:
two lowercase hex digits per byte).  The random bytes are passed in
explicitly (explicit state passing for `crypto/rand.Read`). -/
def hexOfBytes : List Nat → GoStr
  | [] => []
  | b :: t => hexDigit (b / 16) :: hexDigit b :: hexOfBytes t

/-- Embedding of `storage.SavedFile`. -/
structure SavedFile where
  relativePath : GoStr
  sizeBytes : Nat
deriving DecidableEq, Repr

/-- Error kinds raised by `SaveBookFile`, with their `fmt.Errorf` texts. -/
inductive SaveErr where
  | emptyBaseDir
  | tooLarge
  | writeFail
deriving DecidableEq, Repr

/-- The Go error strings of `SaveBookFile` (`err.Error()` prefixes). -/
def saveErrMsg : SaveErr → GoStr
  | .emptyBaseDir => "пустая директория хранения".data
  | .tooLarge => "файл слишком большой".data
  | .writeFail => "ошибка записи файла".data

/-- The file name `SaveBookFile` stores under: `randomHex(16) + ext`,
where `ext` is `filepath.Ext(originalName)` or `".bin"` when empty. -/
def savedName (originalName : GoStr) (rnd : List Nat) : GoStr :=
  hexOfBytes rnd ++ (if goExt originalName = [] then ".bin".data else goExt originalName)

/-- Embedding of `SaveBookFile` (books.go:16-64).  The download stream is the
byte list `stream`; `rnd` is the 16-byte output of `crypto/rand.Read`.
Returns the result, the residual file content in storage (`none` when the
partial file was removed or never written), and the number of bytes drawn
from the stream (`io.Copy` over `io.LimitReader(data, maxSize+1)` when
`maxSize > 0`).  Disk-write failure (`SaveErr.writeFail`) cannot occur in
this pure model of the file system but is part of the error type so the
caller's message dispatch can be stated. -/
def saveBookFile (baseDir originalName : GoStr) (rnd : List Nat)
    (stream : List Nat) (maxSize : Int) :
    Except SaveErr SavedFile × Option (List Nat) × Nat :=
  if baseDir = [] then (.error .emptyBaseDir, none, 0)
  else
    let filename := savedName originalName rnd
    let readBytes := if 0 < maxSize then stream.take (maxSize.toNat + 1) else stream
    let n := readBytes.length
    if 0 < maxSize ∧ maxSize < (n : Int) then (.error .tooLarge, none, n)
    else (.ok ⟨filename, n⟩, some readBytes, n)

/-- The caller's message dispatch (bot.go:460-466): the user sees the
"too big" message exactly when the error text contains "слишком большой". -/
def botSaveErrorMessage (e : SaveErr) : GoStr :=
  if goContains (saveErrMsg e) ("слишком большой".data) then
    "❌ Файл слишком большой. Максимальный размер: 50 MB.".data
  else
    "❌ Ошибка при сохранении файла.".data

/-! ## Library linkage (internal/db/store.go, AddToLibrary) -/

/-- The `user_library` table: rows `(user_id, book_file_id)` with that pair as
primary key.  `AddToLibrary` runs `INSERT OR IGNORE`, i.e. it appends the row
unless the primary key is already present. -/
def addToLibrary (t : List (Int × Int)) (userID fileID : Int) : List (Int × Int) :=
  if (userID, fileID) ∈ t then t else t ++ [(userID, fileID)]

/-! ## Search retry loop (service.FlibustaClient.Search) -/

/-- Outcome of one HTTP attempt of `Search`: network error, non-200 status,
or a response body abstracted by its byte length and what
`parser.ParseBooks` returns on it (`none` for a parse error). -/
inductive Attempt where
  | netErr
  | badStatus (code : Nat)
  | page (bodyLen : Nat) (parsed : Option (List Book))
deriving Repr

/-- Errors `Search` can return. -/
inductive SearchErr where
  | net
  | status (code : Nat)
  | tooShort (n : Nat)
  | parse
deriving DecidableEq, Repr

/-- One iteration of the `Search` attempt loop: every failure returns an
error immediately; a body shorter than 1000 bytes returns the
"ответ слишком короткий" error; a non-empty parse returns the books;
an empty parse falls through to the continuation (the next attempt). -/
def searchStep (a : Attempt) (cont : Except SearchErr (List Book)) :
    Except SearchErr (List Book) :=
  match a with
  | .netErr => .error .net
  | .badStatus c => .error (.status c)
  | .page len parsed =>
    if len < 1000 then .error (.tooShort len)
    else
      match parsed with
      | none => .error .parse
      | some books => if books.isEmpty then cont else .ok books

/-- Embedding of `Search` (maxAttempts = 3): the three per-attempt outcomes
are passed explicitly; after all attempts the loop returns `[]` and no
error. -/
def searchGo (a1 a2 a3 : Attempt) : Except SearchErr (List Book) :=
  searchStep a1 (searchStep a2 (searchStep a3 (.ok [])))

/-! ## Callback dispatch (bot.go handleCallback) -/

/-- Observable actions of `handleCallback`, in program order:
`ack` is `bot.Request(tgbotapi.NewCallback(cb.ID, note))`,
`warn` is `sendMessage(chatID, msg)` on a malformed payload,
the remaining three are the branch actions. -/
inductive CbEvent where
  | ack (note : GoStr)
  | editPage (page : Int)
  | download (bookID formatPath : GoStr)
  | bookDetails (bookID : GoStr)
  | warn (msg : GoStr)
deriving DecidableEq, Repr

def ackPaging : CbEvent := .ack ("Листаю…".data)

def ackDownload : CbEvent := .ack ("Начинаю скачивание... ⏳".data)

def ackOpen : CbEvent := .ack ("Открываю…".data)

def warnPage : CbEvent := .warn ("⚠️ Не удалось переключить страницу.".data)

def warnFormat : CbEvent := .warn ("⚠️ Не удалось распознать формат.".data)

/-- Embedding of `handleCallback` (bot.go:365-430) as the trace of its
observable events, for a callback whose message is present. -/
def handleCallbackGo (data : GoStr) : List CbEvent :=
  if goStartsWith data ("page:".data) then
    ackPaging ::
      (match goAtoi (goDropStart data ("page:".data)) with
       | none => [warnPage]
       | some page => [.editPage page])
  else if goStartsWith data ("dl:".data) then
    match goSplit2 (goDropStart data ("dl:".data)) with
    | none => [warnFormat]
    | some (bookID, formatPath) => [ackDownload, .download bookID formatPath]
  else if goStartsWith data ("book:".data) then
    [ackOpen, .bookDetails (goDropStart data ("book:".data))]
  else if data ≠ [] then
    [ackOpen, .bookDetails data]
  else []

/-! ## Regular expression models (bot.go:63-67)

`sizeInParensRe = \(([^)]+)\)\s*$` and
`sizeLooseRe = (?i)\b\d+(?:[.,]\d+)?\s*(?:kb|mb|gb|kib|mib|gib|кб|мб|гб)\b`
are modelled as direct scanning functions implementing RE2's leftmost-match
semantics for these two concrete patterns.  `\s` and `\b` in Go regexps are
ASCII-only: `\s = [\t\n\f\r ]`, `\b` is a boundary of `[0-9A-Za-z_]`. -/

def reSpace (c : Char) : Bool := c = ' ' ∨ c = '\t' ∨ c = '\n' ∨ c = '\x0c' ∨ c = '\r'

def reWordChar (c : Char) : Bool :=
  ('0' ≤ c ∧ c ≤ '9') ∨ ('a' ≤ c ∧ c ≤ 'z') ∨ ('A' ≤ c ∧ c ≤ 'Z') ∨ c = '_'

/-- Try to match `([^)]+)\)\s*$` just after an opening parenthesis:
the group is a maximal non-`)` run, then `)`, then white space to the end. -/
def parensTryAt (rest : GoStr) : Option GoStr :=
  let content := rest.takeWhile (fun c => c ≠ ')')
  match rest.dropWhile (fun c => c ≠ ')') with
  | ')' :: tail => if content ≠ [] ∧ tail.all reSpace then some content else none
  | _ => none

/-- Capture group of the leftmost match of `sizeInParensRe`, if any. -/
def parensFind : GoStr → Option GoStr
  | [] => none
  | c :: rest =>
    if c = '(' then
      match parensTryAt rest with
      | some g => some g
      | none => parensFind rest
    else parensFind rest

/-- The size units of `sizeLooseRe`, in the pattern's alternation order. -/
def sizeUnits : List GoStr :=
  ["kb".data, "mb".data, "gb".data, "kib".data, "mib".data, "gib".data,
   "кб".data, "мб".data, "гб".data]

/-- Case-insensitive prefix test (the `(?i)` flag on the unit alternation). -/
def foldStartsWith (s u : GoStr) : Bool :=
  goStartsWith (goToUpper s) (goToUpper u)

/-- Word-boundary test between a last matched character and the next input
character (`none` at end of text). -/
def boundaryAfter (lastChar : Char) (next : Option Char) : Bool :=
  match next with
  | none => reWordChar lastChar
  | some n => reWordChar lastChar ≠ reWordChar n

/-- Match `\s*(?:kb|…|гб)\b` at `rest`; returns the matched text
(spaces plus unit, in original case). -/
def looseUnit (rest : GoStr) : Option GoStr :=
  let sp := rest.takeWhile reSpace
  let r4 := rest.dropWhile reSpace
  (sizeUnits.filter (fun u => foldStartsWith r4 u)).head?.bind fun u =>
    let consumed := r4.take u.length
    match consumed.getLast? with
    | none => none
    | some lastChar =>
      if boundaryAfter lastChar (r4.drop u.length).head? then
        some (sp ++ consumed)
      else none

/-- Match `\d+(?:[.,]\d+)?\s*(?:kb|…)\b` at a position starting with a digit.
The main digit run and the fraction digits are maximal (any shorter run
leaves a digit where neither `[.,]`, `\s*`-then-unit can match), so the only
backtracking point is taking or dropping the optional fraction. -/
def looseTryNum (l : GoStr) : Option GoStr :=
  let ds := l.takeWhile goIsDigit
  let r1 := l.dropWhile goIsDigit
  let noFrac := (looseUnit r1).map (fun m => ds ++ m)
  match r1 with
  | p :: r2 =>
    if (p = '.' ∨ p = ',') ∧ (r2.takeWhile goIsDigit) ≠ [] then
      let fs := r2.takeWhile goIsDigit
      let r3 := r2.dropWhile goIsDigit
      match (looseUnit r3).map (fun m => ds ++ p :: fs ++ m) with
      | some m => some m
      | none => noFrac
    else noFrac
  | [] => noFrac

/-- The leftmost match (`m[0]`) of `sizeLooseRe`, scanning start positions
left to right; `prev` is the character before the current position (for the
leading `\b`, satisfied since `\d` is a word character iff `prev` is not a
word character or the position is the start of the text). -/
def looseFindAux : Option Char → GoStr → Option GoStr
  | _, [] => none
  | prev, c :: rest =>
    if goIsDigit c && (match prev with | none => true | some p => ! reWordChar p) then
      match looseTryNum (c :: rest) with
      | some m => some m
      | none => looseFindAux (some c) rest
    else looseFindAux (some c) rest

def looseFind (l : GoStr) : Option GoStr := looseFindAux none l

/-! ## formatButtonText (bot.go:257-283) -/

/-- Embedding of `formatButtonText`. -/
def formatButtonText (opt : BookFormatOption) : GoStr :=
  let format0 := goToUpper (goTrimSpace opt.path)
  let format := if format0 = [] then "FILE".data else format0
  let label := goTrimSpace opt.label
  if label = [] then format
  else
    match parensFind label with
    | some g =>
      let inParens := goTrimSpace g
      if goEqualFold inParens (goTrimSpace opt.path) then format
      else format ++ (" (".data) ++ inParens ++ (")".data)
    | none =>
      match looseFind label with
      | some m0 => format ++ (" (".data) ++ goTrimSpace m0 ++ (")".data)
      | none => format

/-! ## sort.Slice (Go 1.24 sort/zsortfunc.go, pdqsort)

`sendBookDetails` sorts the formats with `sort.Slice`, whose comparator is
`strings.ToUpper(strings.TrimSpace(path_i)) < strings.ToUpper(strings.TrimSpace(path_j))`.
The Go 1.24 implementation (pdqsort, with insertion sort for ranges of at
most 12 elements) is embedded below over a `List` with index get/set; the
loops that Go bounds by index arithmetic take an explicit fuel argument,
always called with more fuel than the loops can consume. -/

/-- The sort key of the comparator in `sendBookDetails` (bot.go:318-322). -/
def fmtKey (o : BookFormatOption) : GoStr := goToUpper (goTrimSpace o.path)

def lget (l : List BookFormatOption) (i : Nat) : BookFormatOption :=
  l.getD i ⟨[], []⟩

/-- The `data.Swap(i, j)` of `sort.Slice`'s `lessSwap`. -/
def lswap (l : List BookFormatOption) (i j : Nat) : List BookFormatOption :=
  (l.set i (lget l j)).set j (lget l i)

/-- The `data.Less(i, j)` of `sort.Slice`'s `lessSwap`, with the comparator
from `sendBookDetails`. -/
def lessAt (l : List BookFormatOption) (i j : Nat) : Bool :=
  goStrLt (fmtKey (lget l i)) (fmtKey (lget l j))

/-- Inner loop of `insertionSort_func`:
`for j := i; j > a && data.Less(j, j-1); j-- { data.Swap(j, j-1) }`. -/
def insInner (l : List BookFormatOption) (a : Nat) : Nat → List BookFormatOption
  | 0 => l
  | j + 1 =>
    if a ≤ j ∧ lessAt l (j + 1) j then insInner (lswap l (j + 1) j) a j else l

/-- Outer loop of `insertionSort_func`: `for i := a + 1; i < b; i++`.
The loop runs exactly `b - (a+1)` times, which is passed as the structural
recursion counter. -/
def insOuterLoop (a : Nat) : Nat → List BookFormatOption → Nat → List BookFormatOption
  | 0, l, _ => l
  | fuel + 1, l, i => insOuterLoop a fuel (insInner l a i) (i + 1)

/-- Embedding of `insertionSort_func(data, a, b)`. -/
def insertionSortGo (l : List BookFormatOption) (a b : Nat) : List BookFormatOption :=
  insOuterLoop a (b - (a + 1)) l (a + 1)

/-- Loop of `siftDown_func`. -/
def siftDownLoop (l : List BookFormatOption) (root hi first : Nat) :
    Nat → List BookFormatOption
  | 0 => l
  | fuel + 1 =>
    let child0 := 2 * root + 1
    if hi ≤ child0 then l
    else
      let child := if child0 + 1 < hi ∧ lessAt l (first + child0) (first + child0 + 1)
        then child0 + 1 else child0
      if ¬ lessAt l (first + root) (first + child) then l
      else siftDownLoop (lswap l (first + root) (first + child)) child hi first fuel

def siftDownGo (l : List BookFormatOption) (lo hi first : Nat) : List BookFormatOption :=
  siftDownLoop l lo hi first (hi + 1)

/-- Heap-construction loop of `heapSort_func`: `for i := (hi-1)/2; i >= 0; i--`.
`i` is passed as `i+1` so that `0` means the loop has finished. -/
def heapBuild (l : List BookFormatOption) (hi first : Nat) : Nat → List BookFormatOption
  | 0 => l
  | i + 1 => heapBuild (siftDownGo l i hi first) hi first i

/-- Pop loop of `heapSort_func`: `for i := hi - 1; i >= 0; i--`. -/
def heapPop (l : List BookFormatOption) (first : Nat) : Nat → List BookFormatOption
  | 0 => l
  | i + 1 => heapPop (siftDownGo (lswap l first (first + i)) 0 i first) first i

/-- Embedding of `heapSort_func(data, a, b)`. -/
def heapSortGo (l : List BookFormatOption) (a b : Nat) : List BookFormatOption :=
  let hi := b - a
  heapPop (heapBuild l hi a ((hi - 1) / 2 + 1)) a hi

/-- Embedding of `bits.Len` (number of bits of a `uint`). -/
def bitsLen (n : Nat) : Nat := if n = 0 then 0 else n.log2 + 1

/-- Embedding of `xorshift.Next()` on a `uint64` state. -/
def xorshiftNext (r : Nat) : Nat :=
  let r1 := (Nat.xor r ((r <<< 13) % 2 ^ 64)) % 2 ^ 64
  let r2 := Nat.xor r1 (r1 >>> 7)
  (Nat.xor r2 ((r2 <<< 17) % 2 ^ 64)) % 2 ^ 64

/-- Embedding of `nextPowerOfTwo(length) = 1 << bits.Len(uint(length))`. -/
def nextPowTwo (n : Nat) : Nat := 1 <<< bitsLen n

/-- The three swaps of `breakPatterns_func` (seeded xorshift; never executed
on the inputs treated in the theorems below, but part of the algorithm). -/
def breakPatternsSwaps (l : List BookFormatOption) (a length idx rnd : Nat) :
    Nat → List BookFormatOption
  | 0 => l
  | step + 1 =>
    let rnd' := xorshiftNext rnd
    let o0 := Nat.land rnd' (nextPowTwo length - 1)
    let other := if length ≤ o0 then o0 - length else o0
    breakPatternsSwaps (lswap l (idx - 1 + (3 - (step + 1))) (other + a)) a length idx rnd' step

/-- Embedding of `breakPatterns_func(data, a, b)`. -/
def breakPatternsGo (l : List BookFormatOption) (a b : Nat) : List BookFormatOption :=
  let length := b - a
  if 8 ≤ length then
    breakPatternsSwaps l a length (a + length / 4 * 2 - 1) length 3
  else l

inductive SortHint where
  | unknown
  | increasing
  | decreasing
deriving DecidableEq, Repr

/-- Embedding of `order2_func`: orders two indices by the data they point at, counting
comparator-detected inversions in `swaps`. -/
def order2 (l : List BookFormatOption) (a b swaps : Nat) : Nat × Nat × Nat :=
  if lessAt l b a then (b, a, swaps + 1) else (a, b, swaps)

/-- Embedding of `median_func`: index of the median of three elements. -/
def medianGo (l : List BookFormatOption) (a b c swaps : Nat) : Nat × Nat :=
  let p1 := order2 l a b swaps
  let p2 := order2 l p1.2.1 c p1.2.2
  let p3 := order2 l p1.1 p2.1 p2.2.2
  (p3.2.1, p3.2.2)

/-- Embedding of `medianAdjacent_func`. -/
def medianAdjacent (l : List BookFormatOption) (a swaps : Nat) : Nat × Nat :=
  medianGo l (a - 1) a (a + 1) swaps

def hintOf (swaps : Nat) : SortHint :=
  if swaps = 0 then .increasing else if swaps = 12 then .decreasing else .unknown

/-- Embedding of `choosePivot_func(data, a, b)`. -/
def choosePivotGo (l : List BookFormatOption) (a b : Nat) : Nat × SortHint :=
  let len := b - a
  let i := a + len / 4 * 1
  let j := a + len / 4 * 2
  let k := a + len / 4 * 3
  if 8 ≤ len then
    if 50 ≤ len then
      let pi := medianAdjacent l i 0
      let pj := medianAdjacent l j pi.2
      let pk := medianAdjacent l k pj.2
      let pm := medianGo l pi.1 pj.1 pk.1 pk.2
      (pm.1, hintOf pm.2)
    else
      let pm := medianGo l i j k 0
      (pm.1, hintOf pm.2)
  else (j, hintOf 0)

/-- Embedding of `reverseRange_func`. -/
def reverseRangeLoop (l : List BookFormatOption) (i j : Nat) : Nat → List BookFormatOption
  | 0 => l
  | fuel + 1 => if i < j then reverseRangeLoop (lswap l i j) (i + 1) (j - 1) fuel else l

def reverseRangeGo (l : List BookFormatOption) (a b : Nat) : List BookFormatOption :=
  reverseRangeLoop l a (b - 1) b

/-- Loop `for i <= j && data.Less(i, a) { i++ }` of `partition_func`. -/
def partAdvI (l : List BookFormatOption) (a j : Nat) : Nat → Nat → Nat
  | 0, i => i
  | fuel + 1, i => if i ≤ j ∧ lessAt l i a then partAdvI l a j fuel (i + 1) else i

/-- Loop `for i <= j && !data.Less(j, a) { j-- }` of `partition_func`. -/
def partRetJ (l : List BookFormatOption) (a i : Nat) : Nat → Nat → Nat
  | 0, j => j
  | fuel + 1, j => if i ≤ j ∧ ¬ lessAt l j a then partRetJ l a i fuel (j - 1) else j

/-- Main loop of `partition_func` (after the first pointer exchange). -/
def partMainLoop (l : List BookFormatOption) (a : Nat) :
    Nat → Nat → Nat → List BookFormatOption × Nat × Bool
  | 0, _, j => (l, j, false)
  | fuel + 1, i, j =>
    let i' := partAdvI l a j (fuel + 2) i
    let j' := partRetJ l a i' (fuel + 2) j
    if j' < i' then (lswap l j' a, j', false)
    else partMainLoop (lswap l i' j') a fuel (i' + 1) (j' - 1)

/-- Embedding of `partition_func(data, a, b, pivot)`: returns the permuted
data, the new pivot position and the `alreadyPartitioned` flag. -/
def partitionGo (l0 : List BookFormatOption) (a b pivot : Nat) :
    List BookFormatOption × Nat × Bool :=
  let l := lswap l0 a pivot
  let i := partAdvI l a (b - 1) (b + 2) (a + 1)
  let j := partRetJ l a i (b + 2) (b - 1)
  if j < i then (lswap l j a, j, true)
  else partMainLoop (lswap l i j) a (b + 2) (i + 1) (j - 1)

/-- Loop `for i <= j && !data.Less(a, i) { i++ }` of `partitionEqual_func`. -/
def partAdvI2 (l : List BookFormatOption) (a j : Nat) : Nat → Nat → Nat
  | 0, i => i
  | fuel + 1, i => if i ≤ j ∧ ¬ lessAt l a i then partAdvI2 l a j fuel (i + 1) else i

/-- Loop `for i <= j && data.Less(a, j) { j-- }` of `partitionEqual_func`. -/
def partRetJ2 (l : List BookFormatOption) (a i : Nat) : Nat → Nat → Nat
  | 0, j => j
  | fuel + 1, j => if i ≤ j ∧ lessAt l a j then partRetJ2 l a i fuel (j - 1) else j

/-- Main loop of `partitionEqual_func`. -/
def partEqLoop (l : List BookFormatOption) (a : Nat) :
    Nat → Nat → Nat → List BookFormatOption × Nat
  | 0, i, _ => (l, i)
  | fuel + 1, i, j =>
    let i' := partAdvI2 l a j (fuel + 2) i
    let j' := partRetJ2 l a i' (fuel + 2) j
    if j' < i' then (l, i')
    else partEqLoop (lswap l i' j') a fuel (i' + 1) (j' - 1)

/-- Embedding of `partitionEqual_func(data, a, b, pivot)`. -/
def partitionEqualGo (l0 : List BookFormatOption) (a b pivot : Nat) :
    List BookFormatOption × Nat :=
  partEqLoop (lswap l0 a pivot) a (b + 2) (a + 1) (b - 1)

/-- Loop `for i < b && !data.Less(i, i-1) { i++ }` of `partialInsertionSort_func`. -/
def pisAdvance (l : List BookFormatOption) (b : Nat) : Nat → Nat → Nat
  | 0, i => i
  | fuel + 1, i =>
    if i < b ∧ ¬ lessAt l i (i - 1) then pisAdvance l b fuel (i + 1) else i

/-- Left shift loop of `partialInsertionSort_func`:
`for j := i - 1; j >= 1; j--` with break on `!data.Less(j, j-1)`. -/
def pisShiftLeft (l : List BookFormatOption) : Nat → List BookFormatOption
  | 0 => l
  | j + 1 =>
    if ¬ lessAt l (j + 1) j then l else pisShiftLeft (lswap l (j + 1) j) j

/-- Right shift loop of `partialInsertionSort_func`:
`for j := i + 1; j < b; j++` with break on `!data.Less(j, j-1)`. -/
def pisShiftRight (l : List BookFormatOption) (b : Nat) : Nat → Nat → List BookFormatOption
  | 0, _ => l
  | fuel + 1, j =>
    if j < b then
      if ¬ lessAt l j (j - 1) then l
      else pisShiftRight (lswap l j (j - 1)) b fuel (j + 1)
    else l

/-- The `maxSteps = 5` loop of `partialInsertionSort_func`
(`shortestShifting = 50`). -/
def pisSteps (l : List BookFormatOption) (a b : Nat) :
    Nat → Nat → List BookFormatOption × Bool
  | 0, _ => (l, false)
  | steps + 1, i =>
    let i' := pisAdvance l b (b + 1) i
    if i' = b then (l, true)
    else if b - a < 50 then (l, false)
    else
      let l1 := lswap l i' (i' - 1)
      let l2 := if 2 ≤ i' - a then pisShiftLeft l1 (i' - 1) else l1
      let l3 := if 2 ≤ b - i' then pisShiftRight l2 b (b + 1) (i' + 1) else l2
      pisSteps l3 a b steps i'

/-- Embedding of `partialInsertionSort_func(data, a, b)`: the (possibly
modified) data and the sorted-detection result. -/
def partialInsertionSortGo (l : List BookFormatOption) (a b : Nat) :
    List BookFormatOption × Bool :=
  pisSteps l a b 5 (a + 1)

/-- Embedding of `pdqsort_func(data, a, b, limit)` (Go 1.24).  `fuel` bounds
the combined loop-iteration/recursion depth; every range treated below is
handed at least `b - a + 1` fuel, more than the algorithm can consume, so
the `0` case is never reached on those calls.  A recursive call restarts
with `wasBalanced = wasPartitioned = true` (they are local variables of the
Go function), while the `continue` of the loop keeps the updated values. -/
def pdqsortGo (fuel : Nat) (l : List BookFormatOption)
    (a b limit : Nat) (wasBalanced wasPartitioned : Bool) : List BookFormatOption :=
  match fuel with
  | 0 => l
  | fuel + 1 =>
    let length := b - a
    if length ≤ 12 then insertionSortGo l a b
    else if limit = 0 then heapSortGo l a b
    else
      let l0 := if ¬ wasBalanced then breakPatternsGo l a b else l
      let limit' := if ¬ wasBalanced then limit - 1 else limit
      let cp := choosePivotGo l0 a b
      let l1 := if cp.2 = .decreasing then reverseRangeGo l0 a b else l0
      let pivot := if cp.2 = .decreasing then (b - 1) - (cp.1 - a) else cp.1
      let hint := if cp.2 = .decreasing then SortHint.increasing else cp.2
      let pres := if wasBalanced ∧ wasPartitioned ∧ hint = .increasing
        then partialInsertionSortGo l1 a b else (l1, false)
      if pres.2 then pres.1
      else
        let l2 := pres.1
        if 0 < a ∧ ¬ lessAt l2 (a - 1) pivot then
          let pe := partitionEqualGo l2 a b pivot
          pdqsortGo fuel pe.1 pe.2 b limit' wasBalanced wasPartitioned
        else
          let pr := partitionGo l2 a b pivot
          let mid := pr.2.1
          let wasPartitioned' := pr.2.2
          let wasBalanced' := decide (length / 8 ≤ min (mid - a) (b - mid))
          if mid - a < b - mid then
            pdqsortGo fuel (pdqsortGo fuel pr.1 a mid limit' true true)
              (mid + 1) b limit' wasBalanced' wasPartitioned'
          else
            pdqsortGo fuel (pdqsortGo fuel pr.1 (mid + 1) b limit' true true)
              a mid limit' wasBalanced' wasPartitioned'

/-- Embedding of `sort.Slice(details.Formats, less)`:
`pdqsort_func(lessSwap, 0, length, bits.Len(uint(length)))`. -/
def sortSliceFormats (fs : List BookFormatOption) : List BookFormatOption :=
  pdqsortGo (fs.length + 1) fs 0 fs.length (bitsLen fs.length) true true

/-! ## sendBookDetails keyboard (bot.go:306-341) -/

/-- A download button: text `formatButtonText(opt)`, payload
`cbDownloadPrefix + bookID + ":" + opt.Path`. -/
def formatBtn (bookID : GoStr) (o : BookFormatOption) : Btn :=
  ⟨formatButtonText o, ("dl:".data) ++ bookID ++ (":".data) ++ o.path⟩

/-- The fallback row for zero parsed formats (bot.go:307-315): the fixed
common set, uppercased, all appended to one row. -/
def fallbackRow (bookID : GoStr) : List Btn :=
  (["epub".data, "fb2".data, "pdf".data]).map fun f =>
    ⟨goToUpper f, ("dl:".data) ++ bookID ++ (":".data) ++ f⟩

/-- The two-buttons-per-row accumulation loop of bot.go:325-338. -/
def chunkAux (row : List Btn) : List Btn → List (List Btn)
  | [] => if row.isEmpty then [] else [row]
  | b :: rest =>
    let row' := row ++ [b]
    if row'.length = 2 then row' :: chunkAux [] rest else chunkAux row' rest

def chunkRows (btns : List Btn) : List (List Btn) := chunkAux [] btns

/-- The keyboard rows built by `sendBookDetails` for a fetched format list. -/
def detailRows (bookID : GoStr) (formats : List BookFormatOption) : List (List Btn) :=
  if formats.isEmpty then [fallbackRow bookID]
  else chunkRows ((sortSliceFormats formats).map (formatBtn bookID))

/-! ## A structural characterisation of Go's insertion sort

`insRev`, `insGo` and `isortL` are not embeddings of source code: they are
the structural description of what the swap loops of `insertionSort_func`
compute, proved equal to the embedding below (`insertionSortGo_eq_isortL`)
and then used to establish sortedness, stability and permutation. -/

/-- Insertion into the reversed prefix: the inner swap loop walks from the
right end of the prefix, jumping over every element strictly greater than
the inserted key. -/
def insRev (x : BookFormatOption) : List BookFormatOption → List BookFormatOption
  | [] => [x]
  | e :: rest =>
    if goStrLt (fmtKey x) (fmtKey e) then e :: insRev x rest else x :: e :: rest

/-- Insertion of `x` into the prefix `p` as performed by the inner loop. -/
def insGo (x : BookFormatOption) (p : List BookFormatOption) : List BookFormatOption :=
  (insRev x p.reverse).reverse

/-- The whole outer loop: left fold of insertions. -/
def isortL (l : List BookFormatOption) : List BookFormatOption :=
  l.foldl (fun acc x => insGo x acc) []


/-- The non-strict key order: `keyLe a b` holds when `a`'s sort key is at
most `b`'s. -/
def keyLe (a b : BookFormatOption) : Prop := goStrLt (fmtKey b) (fmtKey a) = false


/-- Event classifier: acknowledgements. -/
def isAck : CbEvent → Bool
  | .ack _ => true
  | _ => false

/-- Event classifier: the branch actions (paginate, download, open card). -/
def isAction : CbEvent → Bool
  | .editPage _ => true
  | .download _ _ => true
  | .bookDetails _ => true
  | _ => false

/-- A download payload whose remainder after `"dl:"` has no colon, which
`handleCallback` rejects before acknowledging. -/
def malformedDl (data : GoStr) : Bool :=
  goStartsWith data ("dl:".data) ∧ (goSplit2 (goDropStart data ("dl:".data))).isNone


/-- A 13-format detail list: two of its formats ("b" at position 1 and "B"
at position 12) have equal uppercased paths.  Thirteen elements exceed
pdqsort's insertion-sort threshold of 12, so `sort.Slice` runs a partition
step first. -/
def fmts13 : List BookFormatOption :=
  [⟨"q".data, []⟩, ⟨"b".data, []⟩, ⟨"c".data, []⟩, ⟨"a".data, []⟩,
   ⟨"n".data, []⟩, ⟨"o".data, []⟩, ⟨"m".data, []⟩, ⟨"p".data, []⟩,
   ⟨"r".data, []⟩, ⟨"z".data, []⟩, ⟨"s".data, []⟩, ⟨"t".data, []⟩,
   ⟨"B".data, []⟩]


/-! ## Theorems -/

/-- C9: linking a file into a user's library is idempotent: under the
`user_library` primary-key invariant (a pair occurs at most once), calling
`AddToLibrary` twice with the same (user, file) pair leaves exactly one
matching library row, and the duplicate attempt is a no-op. -/
theorem addToLibrary_idempotent (t : List (Int × Int)) (userID fileID : Int)
    (hpk : t.count (userID, fileID) ≤ 1) :
    addToLibrary (addToLibrary t userID fileID) userID fileID =
      addToLibrary t userID fileID ∧
    (addToLibrary (addToLibrary t userID fileID) userID fileID).count
      (userID, fileID) = 1 := by
  by_cases h : (userID, fileID) ∈ t
  · have h1 : addToLibrary t userID fileID = t := by simp [addToLibrary, h]
    have hc : 1 ≤ t.count (userID, fileID) := List.count_pos_iff.mpr h
    constructor
    · rw [h1, h1]
    · rw [h1, h1]
      omega
  · have h1 : addToLibrary t userID fileID = t ++ [(userID, fileID)] := by
      simp [addToLibrary, h]
    have hmem : (userID, fileID) ∈ t ++ [(userID, fileID)] := by simp
    have h2 : addToLibrary (t ++ [(userID, fileID)]) userID fileID =
        t ++ [(userID, fileID)] := by simp [addToLibrary, hmem]
    have hc0 : t.count (userID, fileID) = 0 := List.count_eq_zero.mpr h
    constructor
    · rw [h1, h2]
    · rw [h1, h2]
      simp [List.count_append, hc0]

/-- C9 witness: a concrete double insert. -/
theorem addToLibrary_idempotent_witness :
    ([] : List (Int × Int)).count (1, 2) ≤ 1 ∧
    (addToLibrary (addToLibrary [] 1 2) 1 2 = addToLibrary [] 1 2 ∧
      (addToLibrary (addToLibrary [] 1 2) 1 2).count (1, 2) = 1) :=
  ⟨by decide, addToLibrary_idempotent [] 1 2 (by decide)⟩

/-- Every character produced by `hexDigit` is a lowercase hex digit. -/
theorem hexDigit_mem (d : Nat) : hexDigit d ∈ "0123456789abcdef".data := by
  have h : d % 16 < 16 := Nat.mod_lt _ (by norm_num)
  unfold hexDigit
  set r := d % 16 with hr
  interval_cases r <;> decide

/-- The hex string of `n` bytes has `2 * n` characters. -/
theorem hexOfBytes_length (bytes : List Nat) :
    (hexOfBytes bytes).length = 2 * bytes.length := by
  induction bytes with
  | nil => rfl
  | cons b t ih => simp [hexOfBytes, ih]; omega

/-- Every character of a hex string is a lowercase hex digit. -/
theorem hexOfBytes_chars (bytes : List Nat) :
    ∀ c ∈ hexOfBytes bytes, c ∈ "0123456789abcdef".data := by
  induction bytes with
  | nil => intro c hc; cases hc
  | cons b t ih =>
    intro c hc
    simp only [hexOfBytes, List.mem_cons] at hc
    rcases hc with h | h | h
    · exact h ▸ hexDigit_mem _
    · exact h ▸ hexDigit_mem _
    · exact ih c h

/-- The result of `filepath.Ext` never contains a path separator: the scan stops at the
first separator from the end. -/
theorem goExtAux_no_sep (rev acc : List Char) (hacc : '/' ∉ acc) :
    '/' ∉ goExtAux rev acc := by
  induction rev generalizing acc with
  | nil => intro h; cases h
  | cons c rest ih =>
    by_cases hc : c = '/'
    · simp [goExtAux, hc]
    · by_cases hd : c = '.'
      · simp only [goExtAux, hd, if_neg (by decide : ('.' : Char) ≠ '/'), if_pos rfl]
        intro h
        rcases List.mem_cons.mp h with h | h
        · exact absurd h.symm (by decide)
        · exact hacc h
      · simp only [goExtAux, if_neg hc, if_neg hd]
        exact ih (c :: acc) (by
          intro h
          rcases List.mem_cons.mp h with h | h
          · exact hc h.symm
          · exact hacc h)

theorem goExt_no_sep (name : GoStr) : '/' ∉ goExt name :=
  goExtAux_no_sep name.reverse [] (by intro h; cases h)

/-- C10: the relative storage path returned by `SaveBookFile` is exactly
32 lowercase hexadecimal characters followed by the suggested name's
extension (".bin" when it has none); it contains no path separator, for any
suggested filename, so `filepath.Join(baseDir, filename)` stays directly
inside the storage base directory. -/
theorem saveBookFile_path_shape (baseDir originalName : GoStr) (rnd : List Nat)
    (stream : List Nat) (maxSize : Int) (sf : SavedFile)
    (res : Option (List Nat) × Nat) (hlen : rnd.length = 16)
    (hok : saveBookFile baseDir originalName rnd stream maxSize = (.ok sf, res)) :
    sf.relativePath =
      hexOfBytes rnd ++
        (if goExt originalName = [] then ".bin".data else goExt originalName) ∧
    (hexOfBytes rnd).length = 32 ∧
    (∀ c ∈ hexOfBytes rnd, c ∈ "0123456789abcdef".data) ∧
    '/' ∉ sf.relativePath := by
  have hname : sf.relativePath = savedName originalName rnd := by
    unfold saveBookFile at hok
    by_cases hb : baseDir = []
    · simp [hb] at hok
    · simp only [if_neg hb] at hok
      by_cases hover : 0 < maxSize ∧ maxSize <
          (((if 0 < maxSize then stream.take (maxSize.toNat + 1) else stream).length : Int))
      · simp [if_pos hover] at hok
      · simp only [if_neg hover] at hok
        have := congrArg Prod.fst hok
        simp at this
        rw [← this]
  refine ⟨by rw [hname]; rfl, by rw [hexOfBytes_length, hlen], hexOfBytes_chars rnd, ?_⟩
  rw [hname]
  unfold savedName
  intro hmem
  rcases List.mem_append.mp hmem with h | h
  · have := hexOfBytes_chars rnd '/' h
    simp at this
  · by_cases hext : goExt originalName = []
    · rw [if_pos hext] at h
      have : ('/' : Char) ∈ ".bin".data := h
      simp at this
    · rw [if_neg hext] at h
      exact goExt_no_sep originalName h

/-- C10 witness: a hostile suggested name with separators and "..". -/
theorem saveBookFile_path_shape_witness :
    (List.replicate 16 0).length = 16 ∧
    '/' ∉ (SavedFile.mk (savedName ("../evil/a.txt".data) (List.replicate 16 0)) 0).relativePath :=
  ⟨by simp,
    (saveBookFile_path_shape ("d".data) ("../evil/a.txt".data) (List.replicate 16 0)
      [] 50 ⟨savedName ("../evil/a.txt".data) (List.replicate 16 0), 0⟩
      (some [], 0) (by simp) rfl).2.2.2⟩

/-- C2: with a positive size ceiling, `SaveBookFile` reads at most
`ceiling + 1` bytes from the stream; when the stream exceeds the ceiling the
result is the oversize error kind and no residual file remains; and the
caller's user-facing message for the oversize kind differs from the one for
a generic write failure. -/
theorem saveBookFile_ceiling (baseDir originalName : GoStr) (rnd : List Nat)
    (stream : List Nat) (maxSize : Int)
    (hbase : baseDir ≠ []) (hpos : 0 < maxSize) :
    ((saveBookFile baseDir originalName rnd stream maxSize).2.2 : Int) ≤ maxSize + 1 ∧
    (maxSize < (stream.length : Int) →
      (saveBookFile baseDir originalName rnd stream maxSize).1 = .error .tooLarge ∧
      (saveBookFile baseDir originalName rnd stream maxSize).2.1 = none) ∧
    botSaveErrorMessage .tooLarge ≠ botSaveErrorMessage .writeFail := by
  have hread : (if 0 < maxSize then stream.take (maxSize.toNat + 1) else stream)
      = stream.take (maxSize.toNat + 1) := if_pos hpos
  refine ⟨?_, ?_, by decide⟩
  · unfold saveBookFile
    rw [if_neg hbase]
    simp only [hread]
    by_cases hover : 0 < maxSize ∧ maxSize < ((stream.take (maxSize.toNat + 1)).length : Int)
    · rw [if_pos hover]
      simp only [List.length_take]
      have h1 : min (maxSize.toNat + 1) stream.length ≤ maxSize.toNat + 1 :=
        Nat.min_le_left _ _
      have h2 : ((maxSize.toNat : Int)) = maxSize := Int.toNat_of_nonneg (le_of_lt hpos)
      omega
    · rw [if_neg hover]
      simp only [List.length_take]
      have h1 : min (maxSize.toNat + 1) stream.length ≤ maxSize.toNat + 1 :=
        Nat.min_le_left _ _
      have h2 : ((maxSize.toNat : Int)) = maxSize := Int.toNat_of_nonneg (le_of_lt hpos)
      omega
  · intro hbig
    have hlen : (stream.take (maxSize.toNat + 1)).length = maxSize.toNat + 1 := by
      rw [List.length_take]
      have h2 : ((maxSize.toNat : Int)) = maxSize := Int.toNat_of_nonneg (le_of_lt hpos)
      omega
    have hover : 0 < maxSize ∧ maxSize <
        ((if 0 < maxSize then stream.take (maxSize.toNat + 1) else stream).length : Int) := by
      refine ⟨hpos, ?_⟩
      rw [hread, hlen]
      have h2 : ((maxSize.toNat : Int)) = maxSize := Int.toNat_of_nonneg (le_of_lt hpos)
      omega
    unfold saveBookFile
    rw [if_neg hbase, if_pos hover]
    exact ⟨rfl, rfl⟩

/-- C2 witness: a stream of exactly 50 MiB + 1 bytes under the 50 MiB
ceiling used by `downloadAndSend`. -/
theorem saveBookFile_ceiling_witness :
    ("d".data ≠ ([] : GoStr) ∧ (0 : Int) < 52428800 ∧
      (52428800 : Int) < ((List.replicate 52428801 (0 : Nat)).length : Int)) ∧
    ((saveBookFile ("d".data) ("a.fb2".data) [] (List.replicate 52428801 0) 52428800).1 =
        .error .tooLarge ∧
      (saveBookFile ("d".data) ("a.fb2".data) [] (List.replicate 52428801 0) 52428800).2.1 =
        none) := by
  have hlen : ((List.replicate 52428801 (0 : Nat)).length : Int) = 52428801 := by
    rw [List.length_replicate]; rfl
  refine ⟨⟨by decide, by decide, by rw [hlen]; decide⟩, ?_⟩
  exact (saveBookFile_ceiling ("d".data) ("a.fb2".data) [] (List.replicate 52428801 0)
    52428800 (by decide) (by decide)).2.1 (by rw [hlen]; decide)

/-- C3 counterexample: a suspiciously short response (here 999 bytes on the
first attempt) makes `Search` return the "ответ слишком короткий" error
immediately; it is not retried and the result is an error, not an empty
list, contradicting the claim that a short response is retried and then
turned into an empty result. -/
theorem search_short_response_errors :
    searchGo (.page 999 (some [])) (.page 999 (some [])) (.page 999 (some [])) =
      .error (.tooShort 999) ∧
    (Except.error (SearchErr.tooShort 999) : Except SearchErr (List Book)) ≠ .ok [] :=
  ⟨rfl, by simp⟩

/-- C3 amended: a response shorter than 1000 bytes makes `Search` fail
immediately with the "too short" error (no retry); the bounded retry (3
attempts) applies to full-size responses that parse to zero books, after
which `Search` gives up with an empty result and no error; a non-empty
parse returns those books at once. -/
theorem search_retry_amended (a2 a3 : Attempt) (len l1 l2 l3 : Nat)
    (parsed : Option (List Book)) (books : List Book)
    (hshort : len < 1000) (h1 : 1000 ≤ l1) (h2 : 1000 ≤ l2) (h3 : 1000 ≤ l3)
    (hbooks : books ≠ []) :
    searchGo (.page len parsed) a2 a3 = .error (.tooShort len) ∧
    searchGo (.page l1 (some [])) (.page l2 (some [])) (.page l3 (some [])) = .ok [] ∧
    searchGo (.page l1 (some [])) (.page l2 (some books)) a3 = .ok books := by
  refine ⟨?_, ?_, ?_⟩
  · simp [searchGo, searchStep, hshort]
  · simp [searchGo, searchStep, Nat.not_lt_of_le h1, Nat.not_lt_of_le h2,
      Nat.not_lt_of_le h3]
  · simp [searchGo, searchStep, Nat.not_lt_of_le h1, Nat.not_lt_of_le h2, hbooks]

/-- C3 amended witness. -/
theorem search_retry_amended_witness :
    (999 < 1000 ∧ 1000 ≤ 1500 ∧ (⟨"1".data, [], []⟩ : Book) :: [] ≠ []) ∧
    searchGo (.page 999 none) .netErr .netErr = .error (.tooShort 999) ∧
    searchGo (.page 1500 (some [])) (.page 1500 (some [])) (.page 1500 (some [])) =
      .ok [] ∧
    searchGo (.page 1500 (some [])) (.page 1500 (some [⟨"1".data, [], []⟩])) .netErr =
      .ok [⟨"1".data, [], []⟩] :=
  ⟨⟨by decide, by decide, by simp⟩,
    search_retry_amended .netErr .netErr 999 1500 1500 1500 none [⟨"1".data, [], []⟩]
      (by decide) (by decide) (by decide) (by decide) (by simp)⟩

/-- C6 counterexample: with zero parsed formats the detail card renders a
single row holding all three fallback buttons, not one button per row: the
row-length image of the keyboard is `[3]`, not `[1, 1, 1]`. -/
theorem fallback_single_row :
    (detailRows ("1".data) []).map List.length = [3] ∧
    (detailRows ("1".data) []).map List.length ≠ [1, 1, 1] := by
  constructor <;> decide

/-- C6 amended: when the detail fetch returns zero formats, the card falls
back to exactly the fixed common set (epub, fb2, pdf), uppercase labels,
one button each, all three buttons in one single row. -/
theorem fallback_row_spec (bookID : GoStr) :
    detailRows bookID [] =
      [[⟨"EPUB".data, ("dl:".data) ++ bookID ++ ((":".data) ++ "epub".data)⟩,
        ⟨"FB2".data, ("dl:".data) ++ bookID ++ ((":".data) ++ "fb2".data)⟩,
        ⟨"PDF".data, ("dl:".data) ++ bookID ++ ((":".data) ++ "pdf".data)⟩]] := by
  simp only [detailRows, List.isEmpty_nil, if_pos rfl, fallbackRow, List.map_cons,
    List.map_nil]
  refine congrArg (fun r => [r]) ?_
  have h1 : goToUpper ("epub".data) = "EPUB".data := by decide
  have h2 : goToUpper ("fb2".data) = "FB2".data := by decide
  have h3 : goToUpper ("pdf".data) = "PDF".data := by decide
  simp [h1, h2, h3]

/-- C4 counterexample: the non-empty payload "dl:x" is classified into the
download branch and rejected as malformed, but the trace contains no
acknowledgement at all — the rejection message is sent without the
interaction ever being acknowledged, contradicting the claim that every
branch acknowledges before any blocking work, including before rejecting a
malformed payload. -/
theorem callback_malformed_dl_no_ack :
    handleCallbackGo ("dl:x".data) = [warnFormat] ∧
    ("dl:x".data : GoStr) ≠ [] ∧
    (handleCallbackGo ("dl:x".data)).countP (fun e => isAck e) = 0 := by
  refine ⟨by decide, by decide, by decide⟩

/-- C4 amended: for every non-empty callback payload, at most one branch
action is invoked; a malformed download payload (a `"dl:"` payload whose
remainder has no colon) is rejected with a warning and no acknowledgement;
every other payload is acknowledged first and then followed by exactly one
branch action — except a `"page:"` payload whose page number does not parse,
which is acknowledged and then rejected with a warning.  An empty payload
produces no events at all. -/
theorem handleCallback_amended (data : GoStr) (hne : data ≠ []) :
    (handleCallbackGo data).countP (fun e => isAction e) ≤ 1 ∧
    (malformedDl data = true → handleCallbackGo data = [warnFormat]) ∧
    (malformedDl data = false →
      ∃ note rest, handleCallbackGo data = CbEvent.ack note :: rest ∧
        (rest.countP (fun e => isAction e) = 1 ∨ rest = [warnPage])) ∧
    handleCallbackGo ([] : GoStr) = [] := by
  unfold handleCallbackGo malformedDl
  by_cases hpage : goStartsWith data ("page:".data) = true
  · have hdl : goStartsWith data ("dl:".data) = false := by
      cases data with
      | nil => simp [goStartsWith] at hpage
      | cons c t =>
        simp only [goStartsWith, List.all_nil, decide_eq_true_eq] at hpage ⊢
        rcases hpage with ⟨hc, _⟩
        subst hc
        simp [goStartsWith]
    rw [if_pos hpage, hdl]
    cases hatoi : goAtoi (goDropStart data ("page:".data)) with
    | none =>
      refine ⟨by simp [ackPaging, warnPage, isAction], by simp, ?_, by decide⟩
      intro _
      exact ⟨_, [warnPage], rfl, Or.inr rfl⟩
    | some page =>
      refine ⟨by simp [ackPaging, isAction], by simp, ?_, by decide⟩
      intro _
      exact ⟨_, [.editPage page], rfl, Or.inl (by simp [isAction])⟩
  · rw [if_neg hpage]
    by_cases hdl : goStartsWith data ("dl:".data) = true
    · rw [if_pos hdl]
      simp only [hdl, Bool.true_and]
      cases hsplit : goSplit2 (goDropStart data ("dl:".data)) with
      | none =>
        refine ⟨by simp [warnFormat, isAction], fun _ => rfl, ?_, by decide⟩
        intro hmal
        simp [hsplit] at hmal
      | some bf =>
        cases bf with
        | mk b f =>
          refine ⟨by simp [ackDownload, isAction], ?_, ?_, by decide⟩
          · intro hmal
            simp [hsplit] at hmal
          · intro _
            exact ⟨_, [.download b f], rfl, Or.inl (by simp [isAction])⟩
    · have hdl' : goStartsWith data ("dl:".data) = false := by
        simp only [Bool.not_eq_true] at hdl
        exact hdl
      rw [if_neg hdl, hdl']
      simp only [Bool.false_and]
      by_cases hbook : goStartsWith data ("book:".data) = true
      · rw [if_pos hbook]
        refine ⟨by simp [ackOpen, isAction], by simp, ?_, by decide⟩
        intro _
        exact ⟨_, [.bookDetails (goDropStart data ("book:".data))], rfl,
          Or.inl (by simp [isAction])⟩
      · rw [if_neg hbook, if_pos hne]
        refine ⟨by simp [ackOpen, isAction], by simp, ?_, by decide⟩
        intro _
        exact ⟨_, [.bookDetails data], rfl, Or.inl (by simp [isAction])⟩

/-- C4 amended witness: a well-formed book payload. -/
theorem handleCallback_amended_witness :
    ("book:7".data : GoStr) ≠ [] ∧
    (handleCallbackGo ("book:7".data)).countP (fun e => isAction e) ≤ 1 ∧
    (malformedDl ("book:7".data) = false →
      ∃ note rest, handleCallbackGo ("book:7".data) = CbEvent.ack note :: rest ∧
        (rest.countP (fun e => isAction e) = 1 ∨ rest = [warnPage])) :=
  ⟨by decide,
    (handleCallback_amended ("book:7".data) (by decide)).1,
    (handleCallback_amended ("book:7".data) (by decide)).2.2.1⟩

/-- The ceiling characterisation of `totalPages`:
it is the least number of pages covering the whole count. -/
theorem totalPagesGo_ceil (total pageSize : Nat) (hps : 0 < pageSize) :
    total ≤ totalPagesGo total pageSize * pageSize ∧
    (∀ m : Nat, total ≤ m * pageSize → totalPagesGo total pageSize ≤ m) := by
  unfold totalPagesGo
  by_cases h0 : total = 0
  · simp [h0]
  · rw [if_neg h0]
    constructor
    · have hd := Nat.div_add_mod (total + pageSize - 1) pageSize
      have hm := Nat.mod_lt (total + pageSize - 1) hps
      have hcomm : pageSize * ((total + pageSize - 1) / pageSize)
          = (total + pageSize - 1) / pageSize * pageSize := Nat.mul_comm _ _
      omega
    · intro m hm
      have hle : total + pageSize - 1 ≤ (pageSize - 1) + pageSize * m := by
        have : total ≤ m * pageSize := hm
        have hmul : m * pageSize = pageSize * m := Nat.mul_comm m pageSize
        omega
      calc (total + pageSize - 1) / pageSize
          ≤ ((pageSize - 1) + pageSize * m) / pageSize := Nat.div_le_div_right hle
        _ = (pageSize - 1) / pageSize + m := Nat.add_mul_div_left _ _ hps
        _ = m := by rw [Nat.div_eq_of_lt (by omega)]; omega

/-- Slice facts of `buildPage`, for an arbitrary page index `p`: the
selected window is `[p*pageSize, min(count, (p+1)*pageSize))`, stays within
the list, and its `i`-th element is the book at `p*pageSize + i`. -/
theorem pageSliceFacts (books : List Book) (pageSize p : Nat)
    (hp : p * pageSize ≤ books.length) :
    ((books.drop (p * pageSize)).take
        (min (p * pageSize + pageSize) books.length - p * pageSize) =
      (books.drop (p * pageSize)).take
        (min books.length ((p + 1) * pageSize) - p * pageSize)) ∧
    (p * pageSize + ((books.drop (p * pageSize)).take
        (min (p * pageSize + pageSize) books.length - p * pageSize)).length ≤
      books.length) ∧
    (∀ i : Nat, i < ((books.drop (p * pageSize)).take
        (min (p * pageSize + pageSize) books.length - p * pageSize)).length →
      ((books.drop (p * pageSize)).take
        (min (p * pageSize + pageSize) books.length - p * pageSize))[i]? =
        books[p * pageSize + i]?) := by
  have hmul : (p + 1) * pageSize = p * pageSize + pageSize := by ring
  have hamount : min (p * pageSize + pageSize) books.length - p * pageSize
      = min books.length ((p + 1) * pageSize) - p * pageSize := by
    rw [hmul]
    omega
  refine ⟨by rw [hamount], ?_, ?_⟩
  · clear hamount hmul
    simp only [List.length_take, List.length_drop, Nat.min_def]
    split_ifs <;> omega
  · clear hamount hmul
    intro i hi
    simp only [List.length_take, List.length_drop, Nat.min_def] at hi
    rw [List.getElem?_take, if_pos ?_, List.getElem?_drop]
    split_ifs at hi <;> omega

/-- C1: for every stored non-empty session and every requested page index
(any integer), `buildPage` computes `totalPages` as the ceiling of
count / pageSize (and 0 for an empty count), clamps the requested page into
`[0, totalPages-1]` (leaving an in-range request unchanged), and selects
exactly the slice `[page*pageSize, min(count, (page+1)*pageSize))`, which
never reaches outside `[0, count)`. -/
theorem renderPage_bounds (books : List Book) (pageSize : Nat) (req : Int)
    (hne : books ≠ []) (hps : 0 < pageSize) :
    (books.length ≤ totalPagesGo books.length pageSize * pageSize ∧
      (∀ m : Nat, books.length ≤ m * pageSize →
        totalPagesGo books.length pageSize ≤ m) ∧
      totalPagesGo 0 pageSize = 0) ∧
    ((pageSlice books pageSize req).1 ≤ totalPagesGo books.length pageSize - 1 ∧
      (0 ≤ req → req ≤ (totalPagesGo books.length pageSize : Int) - 1 →
        ((pageSlice books pageSize req).1 : Int) = req)) ∧
    ((pageSlice books pageSize req).2 =
        (books.drop ((pageSlice books pageSize req).1 * pageSize)).take
          (min books.length (((pageSlice books pageSize req).1 + 1) * pageSize) -
            (pageSlice books pageSize req).1 * pageSize) ∧
      (pageSlice books pageSize req).1 * pageSize < books.length ∧
      (pageSlice books pageSize req).1 * pageSize +
          (pageSlice books pageSize req).2.length ≤ books.length ∧
      (∀ i : Nat, i < (pageSlice books pageSize req).2.length →
        (pageSlice books pageSize req).2[i]? =
          books[(pageSlice books pageSize req).1 * pageSize + i]?)) := by
  have htot : 0 < books.length := List.length_pos.mpr hne
  have hceil := totalPagesGo_ceil books.length pageSize hps
  set pages := totalPagesGo books.length pageSize with hpages
  have hpages1 : 0 < pages := by
    by_contra h
    push_neg at h
    interval_cases pages
    · have := hceil.1
      omega
  -- the clamped page
  have hclamp : (pageSlice books pageSize req).1 = (clampPage req (pages : Int)).toNat := by
    simp [pageSlice]
  have hpage_le : (pageSlice books pageSize req).1 ≤ pages - 1 := by
    rw [hclamp]
    unfold clampPage
    split
    · omega
    · split
      · omega
      · split
        · omega
        · rename_i h1 h2 h3
          push_neg at h3
          omega
  have hpage_id : 0 ≤ req → req ≤ (pages : Int) - 1 →
      ((pageSlice books pageSize req).1 : Int) = req := by
    intro h1 h2
    rw [hclamp]
    unfold clampPage
    rw [if_neg (by omega), if_neg (by omega), if_neg (by omega)]
    omega
  -- start stays strictly inside the count
  have hstart : (pageSlice books pageSize req).1 * pageSize < books.length := by
    have h1 : (pageSlice books pageSize req).1 ≤ pages - 1 := hpage_le
    by_contra hcon
    push_neg at hcon
    have : pages ≤ (pageSlice books pageSize req).1 :=
      hceil.2 _ hcon
    omega
  refine ⟨⟨hceil.1, hceil.2, by simp [totalPagesGo]⟩, ⟨hpage_le, hpage_id⟩,
    (pageSliceFacts books pageSize _ (le_of_lt hstart)).1, hstart,
    (pageSliceFacts books pageSize _ (le_of_lt hstart)).2.1,
    (pageSliceFacts books pageSize _ (le_of_lt hstart)).2.2⟩

/-- C1 witness: 25 items with pageSize 10; requesting page 5 clamps to
page 2 and shows items 20-24. -/
theorem renderPage_bounds_witness :
    ((List.range 25).map (fun i => (⟨natToStr i, [], []⟩ : Book)) ≠ [] ∧ 0 < 10) ∧
    (pageSlice ((List.range 25).map fun i => (⟨natToStr i, [], []⟩ : Book)) 10 5).1 = 2 ∧
    (pageSlice ((List.range 25).map fun i => (⟨natToStr i, [], []⟩ : Book)) 10 5).2 =
      ((List.range 25).map fun i => (⟨natToStr i, [], []⟩ : Book)).drop 20 ∧
    ((pageSlice ((List.range 25).map fun i => (⟨natToStr i, [], []⟩ : Book)) 10 5).1 ≤
        totalPagesGo 25 10 - 1 ∧
      (pageSlice ((List.range 25).map fun i => (⟨natToStr i, [], []⟩ : Book)) 10 5).1 * 10 <
        25) := by
  have h := renderPage_bounds ((List.range 25).map fun i => (⟨natToStr i, [], []⟩ : Book))
    10 5 (by decide) (by decide)
  have hlen : ((List.range 25).map fun i => (⟨natToStr i, [], []⟩ : Book)).length = 25 := by
    simp
  refine ⟨⟨by decide, by decide⟩, by decide, by decide, ?_, ?_⟩
  · have := h.2.1.1
    rw [hlen] at this
    exact this
  · have := h.2.2.2.1
    rw [hlen] at this
    exact this

theorem prevBtn_ne_centerBtn (p q r : Nat) : prevBtn p ≠ centerBtn q r := by
  intro h
  have h1 : (prevBtn p).text.head? = (centerBtn q r).text.head? :=
    congrArg (fun b => b.text.head?) h
  have h2 : (prevBtn p).text.head? = some '⬅' := rfl
  have h3 : (centerBtn q r).text.head? = some '•' := rfl
  rw [h2, h3] at h1
  exact absurd h1 (by decide)

theorem prevBtn_ne_nextBtn (p q : Nat) : prevBtn p ≠ nextBtn q := by
  intro h
  have h1 : (prevBtn p).text.head? = (nextBtn q).text.head? :=
    congrArg (fun b => b.text.head?) h
  have h2 : (prevBtn p).text.head? = some '⬅' := rfl
  have h3 : (nextBtn q).text.head? = some '➡' := rfl
  rw [h2, h3] at h1
  exact absurd h1 (by decide)

theorem nextBtn_ne_centerBtn (p q r : Nat) : nextBtn p ≠ centerBtn q r := by
  intro h
  have h1 : (nextBtn p).text.head? = (centerBtn q r).text.head? :=
    congrArg (fun b => b.text.head?) h
  have h2 : (nextBtn p).text.head? = some '➡' := rfl
  have h3 : (centerBtn q r).text.head? = some '•' := rfl
  rw [h2, h3] at h1
  exact absurd h1 (by decide)

/-- The "previous" control appears in the navigation row exactly when the
page is not the first one. -/
theorem prevBtn_mem_navRow (page pages : Nat) :
    prevBtn page ∈ navRow page pages ↔ 0 < page := by
  unfold navRow
  by_cases hp : 0 < page <;>
    by_cases hn : page < pages - 1 <;>
      simp [hp, hn, prevBtn_ne_centerBtn, prevBtn_ne_nextBtn]

/-- The page indicator always appears in the navigation row. -/
theorem centerBtn_mem_navRow (page pages : Nat) :
    centerBtn page pages ∈ navRow page pages := by
  unfold navRow
  simp

/-- The "next" control appears in the navigation row exactly when the page
is not the last one. -/
theorem nextBtn_mem_navRow (page pages : Nat) :
    nextBtn page ∈ navRow page pages ↔ page < pages - 1 := by
  unfold navRow
  by_cases hp : 0 < page <;>
    by_cases hn : page < pages - 1 <;>
      simp [hp, hn, (prevBtn_ne_nextBtn page page).symm, nextBtn_ne_centerBtn]

/-- C7: for every page rendered from a non-empty session, the keyboard of
`buildPage` carries the navigation row exactly when `totalPages > 1`
(it is omitted when `totalPages ≤ 1`), and that row contains the
"previous" control exactly when `page > 0`, always the `page+1/totalPages`
indicator, and the "next" control exactly when `page < totalPages - 1`. -/
theorem buildPage_nav (books : List Book) (pageSize : Nat) (req : Int)
    (hne : books ≠ []) :
    (totalPagesGo books.length pageSize ≤ 1 →
      buildPageGo books pageSize req =
        some ((pageSlice books pageSize req).1, (pageSlice books pageSize req).2,
          (pageSlice books pageSize req).2.map bookRow)) ∧
    (1 < totalPagesGo books.length pageSize →
      buildPageGo books pageSize req =
        some ((pageSlice books pageSize req).1, (pageSlice books pageSize req).2,
          (pageSlice books pageSize req).2.map bookRow ++
            [navRow (pageSlice books pageSize req).1
              (totalPagesGo books.length pageSize)]) ∧
      (prevBtn (pageSlice books pageSize req).1 ∈
          navRow (pageSlice books pageSize req).1
            (totalPagesGo books.length pageSize) ↔
        0 < (pageSlice books pageSize req).1) ∧
      centerBtn (pageSlice books pageSize req).1
          (totalPagesGo books.length pageSize) ∈
        navRow (pageSlice books pageSize req).1
          (totalPagesGo books.length pageSize) ∧
      (nextBtn (pageSlice books pageSize req).1 ∈
          navRow (pageSlice books pageSize req).1
            (totalPagesGo books.length pageSize) ↔
        (pageSlice books pageSize req).1 <
          totalPagesGo books.length pageSize - 1)) := by
  have hempty : books.isEmpty = false := by
    cases books with
    | nil => exact absurd rfl hne
    | cons b t => rfl
  constructor
  · intro hle
    unfold buildPageGo
    rw [hempty]
    simp only [Bool.false_eq_true, if_false]
    rw [if_neg (by omega), List.append_nil]
  · intro hgt
    refine ⟨?_, prevBtn_mem_navRow _ _, centerBtn_mem_navRow _ _, nextBtn_mem_navRow _ _⟩
    unfold buildPageGo
    rw [hempty]
    simp only [Bool.false_eq_true, if_false]
    rw [if_pos hgt]

/-- C7 witness: 25 items, pageSize 10.  Page 0 renders only the "next"
control, page 2 (the last page) only the "previous" control, and the
navigation row is present since there are 3 pages. -/
theorem buildPage_nav_witness :
    ((List.range 25).map (fun i => (⟨natToStr i, [], []⟩ : Book)) ≠ [] ∧
      1 < totalPagesGo 25 10) ∧
    (prevBtn 0 ∈ navRow 0 3 ↔ (0 : Nat) < 0) ∧
    (nextBtn 0 ∈ navRow 0 3 ↔ (0 : Nat) < 2) ∧
    (prevBtn 2 ∈ navRow 2 3 ↔ (0 : Nat) < 2) ∧
    (nextBtn 2 ∈ navRow 2 3 ↔ (2 : Nat) < 2) ∧
    (buildPageGo ((List.range 25).map fun i => (⟨natToStr i, [], []⟩ : Book)) 10 5).isSome
      = true := by
  have h := buildPage_nav ((List.range 25).map fun i => (⟨natToStr i, [], []⟩ : Book))
    10 5 (by decide)
  have hlen : ((List.range 25).map fun i => (⟨natToStr i, [], []⟩ : Book)).length = 25 := by
    simp
  refine ⟨⟨by decide, by decide⟩, prevBtn_mem_navRow 0 3, nextBtn_mem_navRow 0 3,
    prevBtn_mem_navRow 2 3, nextBtn_mem_navRow 2 3, ?_⟩
  have h2 := h.2
  rw [hlen] at h2
  rw [(h2 (by decide)).1]
  rfl

/-- C8: the format button text is the uppercased trimmed format path alone
when the label's trailing parenthesized suffix case-insensitively equals
the format path; "FORMAT (suffix)" for any other trailing parenthesized
suffix; "FORMAT (matched-size-token)" when the label instead matches the
loose size pattern; and "FORMAT" alone otherwise — in particular label
"EPUB (epub)" with path "epub" renders "EPUB", and label "FB2 (1.2 Mb)"
with path "fb2" renders "FB2 (1.2 Mb)". -/
theorem formatButtonText_spec (opt : BookFormatOption)
    (hpath : goTrimSpace opt.path ≠ []) (hlabel : goTrimSpace opt.label ≠ []) :
    ((∀ g, parensFind (goTrimSpace opt.label) = some g →
        formatButtonText opt =
          (if goEqualFold (goTrimSpace g) (goTrimSpace opt.path) then
            goToUpper (goTrimSpace opt.path)
          else goToUpper (goTrimSpace opt.path) ++ (" (".data) ++ goTrimSpace g ++
            (")".data))) ∧
      (parensFind (goTrimSpace opt.label) = none →
        (∀ m, looseFind (goTrimSpace opt.label) = some m →
          formatButtonText opt =
            goToUpper (goTrimSpace opt.path) ++ (" (".data) ++ goTrimSpace m ++
              (")".data)) ∧
        (looseFind (goTrimSpace opt.label) = none →
          formatButtonText opt = goToUpper (goTrimSpace opt.path)))) ∧
    formatButtonText ⟨"epub".data, "EPUB (epub)".data⟩ = "EPUB".data ∧
    formatButtonText ⟨"fb2".data, "FB2 (1.2 Mb)".data⟩ = "FB2 (1.2 Mb)".data := by
  have hfmt : (if goToUpper (goTrimSpace opt.path) = [] then "FILE".data
      else goToUpper (goTrimSpace opt.path)) = goToUpper (goTrimSpace opt.path) := by
    rw [if_neg]
    intro h
    exact hpath (by simpa [goToUpper] using congrArg List.length h)
  refine ⟨⟨?_, ?_⟩, by decide, by decide⟩
  · intro g hg
    unfold formatButtonText
    simp only [hfmt, if_neg hlabel, hg]
  · intro hnone
    constructor
    · intro m hm
      unfold formatButtonText
      simp only [hfmt, if_neg hlabel, hnone, hm]
    · intro hm
      unfold formatButtonText
      simp only [hfmt, if_neg hlabel, hnone, hm]

/-- C8 witness: the two concrete examples of the claim. -/
theorem formatButtonText_spec_witness :
    (goTrimSpace ("fb2".data) ≠ [] ∧ goTrimSpace ("FB2 (1.2 Mb)".data) ≠ []) ∧
    (∀ g, parensFind (goTrimSpace ("FB2 (1.2 Mb)".data)) = some g →
      formatButtonText ⟨"fb2".data, "FB2 (1.2 Mb)".data⟩ =
        (if goEqualFold (goTrimSpace g) (goTrimSpace ("fb2".data)) then
          goToUpper (goTrimSpace ("fb2".data))
        else goToUpper (goTrimSpace ("fb2".data)) ++ (" (".data) ++ goTrimSpace g ++
          (")".data))) ∧
    formatButtonText ⟨"epub".data, "EPUB (epub)".data⟩ = "EPUB".data :=
  ⟨⟨by decide, by decide⟩,
    (formatButtonText_spec ⟨"fb2".data, "FB2 (1.2 Mb)".data⟩ (by decide) (by decide)).1.1,
    (formatButtonText_spec ⟨"fb2".data, "FB2 (1.2 Mb)".data⟩ (by decide) (by decide)).2.1⟩

/-! ## Order lemmas for the comparator -/

theorem goStrLt_irrefl (s : GoStr) : goStrLt s s = false := by
  induction s with
  | nil => rfl
  | cons c t ih => simp [goStrLt, ih]

theorem goStrLt_trans {a b c : GoStr} (h1 : goStrLt a b = true)
    (h2 : goStrLt b c = true) : goStrLt a c = true := by
  induction a generalizing b c with
  | nil =>
    cases c with
    | nil => cases b <;> simp [goStrLt] at h1 h2
    | cons z zs => rfl
  | cons x xs ih =>
    cases b with
    | nil => simp [goStrLt] at h1
    | cons y ys =>
      cases c with
      | nil => simp [goStrLt] at h2
      | cons z zs =>
        simp only [goStrLt] at h1 h2 ⊢
        split_ifs at h1 h2 ⊢ with hxy hyx hyz hzy hxz hzx
        all_goals first
          | rfl
          | omega
          | (exact ih h1 h2)

theorem goStrLt_eq_of_not_lt {a b : GoStr} (h1 : goStrLt a b = false)
    (h2 : goStrLt b a = false) : a = b := by
  induction a generalizing b with
  | nil =>
    cases b with
    | nil => rfl
    | cons y ys => exact Bool.noConfusion h1
  | cons x xs ih =>
    cases b with
    | nil => exact Bool.noConfusion h2
    | cons y ys =>
      simp only [goStrLt] at h1 h2
      split_ifs at h1 h2 with hxy hyx
      all_goals first
        | (exact Bool.noConfusion h1)
        | (exact Bool.noConfusion h2)
        | (have e1 : x.toNat = x.val.val := rfl
           have e2 : y.toNat = y.val.val := rfl
           have hc : x = y := Char.ext (UInt32.eq_of_val_eq (Fin.ext (by omega)))
           rw [hc, ih h1 h2])

theorem goStrLt_asymm {a b : GoStr} (h : goStrLt a b = true) :
    goStrLt b a = false := by
  by_contra hcon
  rw [Bool.not_eq_false] at hcon
  have := goStrLt_trans h hcon
  rw [goStrLt_irrefl] at this
  exact absurd this (by simp)

/-- Transitivity of the non-strict key order `¬ (key b < key a)`. -/
theorem goStrLe_trans {a b c : GoStr} (h1 : goStrLt b a = false)
    (h2 : goStrLt c b = false) : goStrLt c a = false := by
  by_contra hcon
  rw [Bool.not_eq_false] at hcon
  cases hbc : goStrLt b c with
  | true => rw [goStrLt_trans hbc hcon] at h1; exact absurd h1 (by simp)
  | false => rw [goStrLt_eq_of_not_lt hbc h2] at h1; rw [h1] at hcon; simp at hcon

theorem insRev_length (x : BookFormatOption) (q : List BookFormatOption) :
    (insRev x q).length = q.length + 1 := by
  induction q with
  | nil => rfl
  | cons e rest ih =>
    simp only [insRev]
    split_ifs <;> simp [ih]

theorem insGo_length (x : BookFormatOption) (p : List BookFormatOption) :
    (insGo x p).length = p.length + 1 := by
  simp [insGo, insRev_length]

/-! Index lemmas for `lget`, `List.set` and `lswap` around an append. -/

theorem lget_append_len (p s : List BookFormatOption) (x : BookFormatOption) :
    lget (p ++ x :: s) p.length = x := by
  induction p with
  | nil => rfl
  | cons c t ih => simpa [lget, List.getD] using ih

theorem set_append_len (p s : List BookFormatOption) (x v : BookFormatOption) :
    (p ++ x :: s).set p.length v = p ++ v :: s := by
  induction p with
  | nil => rfl
  | cons c t ih => simp [List.set, ih]

theorem lget_append_len_succ (p s : List BookFormatOption) (e x : BookFormatOption) :
    lget (p ++ e :: x :: s) (p.length + 1) = x := by
  have h := lget_append_len (p ++ [e]) s x
  simpa using h

theorem lswap_adjacent (p s : List BookFormatOption) (e x : BookFormatOption) :
    lswap (p ++ e :: x :: s) (p.length + 1) p.length = p ++ x :: e :: s := by
  unfold lswap
  rw [lget_append_len_succ, lget_append_len]
  have h1 : (p ++ e :: x :: s).set (p.length + 1) e = p ++ e :: e :: s := by
    have h := set_append_len (p ++ [e]) s x e
    simp only [List.append_assoc, List.cons_append, List.nil_append,
      List.length_append, List.length_cons, List.length_nil] at h
    exact h
  rw [h1, set_append_len]

/-- One-step equation of `insRev`. -/
theorem insRev_cons (x e : BookFormatOption) (rest : List BookFormatOption) :
    insRev x (e :: rest) =
      if goStrLt (fmtKey x) (fmtKey e) then e :: insRev x rest
      else x :: e :: rest := rfl

/-- Effect of `insGo` on a prefix extended on the right. -/
theorem insGo_concat (x e : BookFormatOption) (p : List BookFormatOption) :
    insGo x (p ++ [e]) =
      if goStrLt (fmtKey x) (fmtKey e) then insGo x p ++ [e]
      else p ++ [e, x] := by
  unfold insGo
  rw [List.reverse_append]
  simp only [List.reverse_cons, List.reverse_nil, List.nil_append, List.singleton_append]
  rw [insRev_cons]
  split_ifs with h
  · simp
  · simp

/-- The inner swap loop of `insertionSort_func` inserts the element at
position `p.length` into the prefix `p`, leaving the suffix untouched. -/
theorem insInner_eq_insGo (p : List BookFormatOption) (x : BookFormatOption)
    (s : List BookFormatOption) :
    insInner (p ++ x :: s) 0 p.length = insGo x p ++ s := by
  induction p using List.reverseRecOn generalizing s with
  | nil => simp [insInner, insGo, insRev]
  | append_singleton p' e ih =>
    have hlen : (p' ++ [e]).length = p'.length + 1 := by simp
    rw [hlen]
    have hl : p' ++ [e] ++ x :: s = p' ++ e :: x :: s := by simp
    rw [hl]
    show insInner (p' ++ e :: x :: s) 0 (p'.length + 1) = _
    unfold insInner
    have hgx : lget (p' ++ e :: x :: s) (p'.length + 1) = x := lget_append_len_succ _ _ _ _
    have hge : lget (p' ++ e :: x :: s) p'.length = e := lget_append_len _ _ _
    simp only [lessAt, hgx, hge, Nat.zero_le, true_and]
    rw [insGo_concat]
    by_cases hlt : goStrLt (fmtKey x) (fmtKey e) = true
    · rw [if_pos hlt, if_pos hlt, lswap_adjacent]
      rw [ih (s := e :: s)]
      simp
    · rw [if_neg (by simpa using hlt), if_neg (by simpa using hlt)]
      simp

/-- The outer loop of `insertionSort_func` performs the left fold of
insertions over the unprocessed suffix. -/
theorem insOuterLoop_eq_foldl (s p : List BookFormatOption) :
    insOuterLoop 0 s.length (p ++ s) p.length =
      s.foldl (fun acc x => insGo x acc) p := by
  induction s generalizing p with
  | nil => simp [insOuterLoop]
  | cons x s' ih =>
    show insOuterLoop 0 s'.length (insInner (p ++ x :: s') 0 p.length) (p.length + 1) = _
    rw [insInner_eq_insGo]
    have hlen : p.length + 1 = (insGo x p).length := (insGo_length _ _).symm
    rw [hlen, ih (insGo x p)]
    rfl

/-- Running `insertionSort_func(data, 0, len(data))` is the left fold of structural
insertions. -/
theorem insertionSortGo_eq_isortL (l : List BookFormatOption) :
    insertionSortGo l 0 l.length = isortL l := by
  cases l with
  | nil => rfl
  | cons x xs =>
    show insOuterLoop 0 ((x :: xs).length - 1) (x :: xs) 1 = _
    have hl : (x :: xs).length - 1 = xs.length := by rw [List.length_cons]; omega
    rw [hl]
    have h := insOuterLoop_eq_foldl xs [x]
    simp only [List.singleton_append, List.length_singleton] at h
    rw [h]
    unfold isortL
    rw [List.foldl_cons]
    rfl

/-- For at most 12 elements, `sort.Slice` is exactly the insertion sort. -/
theorem sortSliceFormats_small (fs : List BookFormatOption) (h : fs.length ≤ 12) :
    sortSliceFormats fs = isortL fs := by
  rw [← insertionSortGo_eq_isortL]
  show pdqsortGo (fs.length + 1) fs 0 fs.length (bitsLen fs.length) true true = _
  unfold pdqsortGo
  rw [if_pos (by omega)]

theorem insRev_perm (x : BookFormatOption) (q : List BookFormatOption) :
    List.Perm (insRev x q) (x :: q) := by
  induction q with
  | nil => exact List.Perm.refl _
  | cons e rest ih =>
    rw [insRev_cons]
    split_ifs with hlt
    · exact (ih.cons e).trans (List.Perm.swap x e rest)
    · exact List.Perm.refl _

theorem insGo_perm (x : BookFormatOption) (p : List BookFormatOption) :
    List.Perm (insGo x p) (x :: p) := by
  unfold insGo
  refine ((insRev x p.reverse).reverse_perm).trans ?_
  exact (insRev_perm x p.reverse).trans ((p.reverse_perm).cons x)

theorem insRev_sorted (x : BookFormatOption) (q : List BookFormatOption)
    (hq : q.Pairwise (fun a b => keyLe b a)) :
    (insRev x q).Pairwise (fun a b => keyLe b a) := by
  induction q with
  | nil => simp [insRev]
  | cons e rest ih =>
    rw [List.pairwise_cons] at hq
    rw [insRev_cons]
    split_ifs with hlt
    · rw [List.pairwise_cons]
      refine ⟨?_, ih hq.2⟩
      intro y hy
      rcases List.mem_cons.mp ((insRev_perm x rest).mem_iff.mp hy) with h | h
      · show goStrLt (fmtKey e) (fmtKey y) = false
        rw [h]
        exact goStrLt_asymm hlt
      · exact hq.1 y h
    · rw [List.pairwise_cons]
      refine ⟨?_, List.pairwise_cons.mpr hq⟩
      intro y hy
      rcases List.mem_cons.mp hy with h | h
      · show goStrLt (fmtKey x) (fmtKey y) = false
        rw [h]
        simpa using hlt
      · show goStrLt (fmtKey x) (fmtKey y) = false
        exact goStrLe_trans (show goStrLt (fmtKey e) (fmtKey y) = false from hq.1 y h)
          (show goStrLt (fmtKey x) (fmtKey e) = false from by simpa using hlt)

theorem insGo_sorted (x : BookFormatOption) (p : List BookFormatOption)
    (hp : p.Pairwise keyLe) : (insGo x p).Pairwise keyLe := by
  unfold insGo
  rw [List.pairwise_reverse]
  exact insRev_sorted x p.reverse (List.pairwise_reverse.mpr hp)

theorem foldl_insGo_sorted (s acc : List BookFormatOption)
    (hacc : acc.Pairwise keyLe) :
    (s.foldl (fun a x => insGo x a) acc).Pairwise keyLe := by
  induction s generalizing acc with
  | nil => exact hacc
  | cons x s' ih => exact ih _ (insGo_sorted x acc hacc)

/-- The output of Go's insertion sort is sorted by the comparator key. -/
theorem isortL_sorted (l : List BookFormatOption) : (isortL l).Pairwise keyLe :=
  foldl_insGo_sorted l [] List.Pairwise.nil

theorem foldl_insGo_perm (s acc : List BookFormatOption) :
    List.Perm (s.foldl (fun a x => insGo x a) acc) (acc ++ s) := by
  induction s generalizing acc with
  | nil => simp
  | cons x s' ih =>
    show List.Perm (s'.foldl (fun a x => insGo x a) (insGo x acc)) _
    refine (ih (insGo x acc)).trans ?_
    refine (List.Perm.append_right s' (insGo_perm x acc)).trans ?_
    show List.Perm (x :: (acc ++ s')) (acc ++ x :: s')
    exact List.perm_middle.symm

/-- The output of Go's insertion sort is a permutation of the input. -/
theorem isortL_perm (l : List BookFormatOption) : List.Perm (isortL l) l := by
  have h := foldl_insGo_perm l []
  simpa [isortL] using h

/-- Strictly smaller keys are distinct keys. -/
theorem fmtKey_ne_of_lt {x e : BookFormatOption}
    (h : goStrLt (fmtKey x) (fmtKey e) = true) : fmtKey x ≠ fmtKey e := by
  intro hk
  rw [hk, goStrLt_irrefl] at h
  exact Bool.noConfusion h

theorem insRev_filter (k : GoStr) (x : BookFormatOption)
    (q : List BookFormatOption) :
    (insRev x q).filter (fun o => decide (fmtKey o = k)) =
      if fmtKey x = k then x :: q.filter (fun o => decide (fmtKey o = k))
      else q.filter (fun o => decide (fmtKey o = k)) := by
  induction q with
  | nil =>
    simp only [insRev, List.filter]
    by_cases hx : fmtKey x = k <;> simp [hx]
  | cons e rest ih =>
    by_cases hlt : goStrLt (fmtKey x) (fmtKey e) = true
    · have hne : fmtKey x ≠ fmtKey e := fmtKey_ne_of_lt hlt
      rw [insRev_cons, if_pos hlt]
      by_cases hx : fmtKey x = k
      · have he : ¬ fmtKey e = k := fun he => hne (hx.trans he.symm)
        simp [List.filter_cons, hx, he, ih]
      · simp [List.filter_cons, hx, ih]
    · rw [insRev_cons, if_neg hlt]
      by_cases hx : fmtKey x = k <;> simp [List.filter_cons, hx]

theorem filter_reverse_eq (P : BookFormatOption → Bool) (l : List BookFormatOption) :
    l.reverse.filter P = (l.filter P).reverse := by
  induction l with
  | nil => rfl
  | cons c t ih =>
    rw [List.reverse_cons, List.filter_append, List.filter_cons, ih]
    by_cases hc : P c = true <;> simp [hc]

theorem insGo_filter (k : GoStr) (x : BookFormatOption) (p : List BookFormatOption) :
    (insGo x p).filter (fun o => decide (fmtKey o = k)) =
      if fmtKey x = k then p.filter (fun o => decide (fmtKey o = k)) ++ [x]
      else p.filter (fun o => decide (fmtKey o = k)) := by
  unfold insGo
  rw [filter_reverse_eq, insRev_filter]
  split_ifs with hx
  · rw [List.reverse_cons, filter_reverse_eq, List.reverse_reverse]
  · rw [filter_reverse_eq, List.reverse_reverse]

theorem foldl_insGo_filter (k : GoStr) (s acc : List BookFormatOption) :
    (s.foldl (fun a x => insGo x a) acc).filter (fun o => decide (fmtKey o = k)) =
      acc.filter (fun o => decide (fmtKey o = k)) ++
        s.filter (fun o => decide (fmtKey o = k)) := by
  induction s generalizing acc with
  | nil => simp
  | cons x s' ih =>
    show (s'.foldl (fun a x => insGo x a) (insGo x acc)).filter _ = _
    rw [ih, insGo_filter, List.filter_cons]
    by_cases hx : fmtKey x = k <;> simp [hx]

/-- Go's insertion sort is stable: for every key value, the subsequence of
elements with that key is unchanged. -/
theorem isortL_filter (k : GoStr) (l : List BookFormatOption) :
    (isortL l).filter (fun o => decide (fmtKey o = k)) =
      l.filter (fun o => decide (fmtKey o = k)) := by
  have h := foldl_insGo_filter k l []
  simpa [isortL] using h

/-- The two-per-row accumulation loop flattens back to the button list. -/
theorem chunkAux_flatten (btns row : List Btn) :
    (chunkAux row btns).flatten = row ++ btns := by
  induction btns generalizing row with
  | nil =>
    by_cases h : row.isEmpty = true
    · rw [List.isEmpty_iff] at h
      simp [chunkAux, h]
    · simp only [chunkAux, if_neg h]
      simp
  | cons b rest ih =>
    show (if (row ++ [b]).length = 2 then (row ++ [b]) :: chunkAux [] rest
      else chunkAux (row ++ [b]) rest).flatten = _
    split_ifs with h2
    · rw [List.flatten_cons, ih []]
      simp
    · rw [ih (row ++ [b])]
      simp

/-- Every produced row has one or two buttons. -/
theorem chunkAux_mem_length (btns row : List Btn) (hrow : row.length ≤ 1) :
    ∀ r ∈ chunkAux row btns, r.length = 1 ∨ r.length = 2 := by
  induction btns generalizing row with
  | nil =>
    intro r hr
    by_cases h : row.isEmpty = true
    · rw [List.isEmpty_iff] at h
      simp [chunkAux, h] at hr
    · simp only [chunkAux, if_neg h] at hr
      rw [List.mem_singleton] at hr
      subst hr
      have hne' : r ≠ [] := by
        intro hnil
        rw [hnil] at h
        exact h rfl
      have hpos : 0 < r.length := List.length_pos.mpr hne'
      omega
  | cons b rest ih =>
    intro r hr
    rw [show chunkAux row (b :: rest) = (if (row ++ [b]).length = 2 then
      (row ++ [b]) :: chunkAux [] rest else chunkAux (row ++ [b]) rest) from rfl] at hr
    split_ifs at hr with h2
    · rcases List.mem_cons.mp hr with h | h
      · subst h
        right
        exact h2
      · exact ih [] (by simp) r h
    · refine ih (row ++ [b]) ?_ r hr
      rw [List.length_append] at h2 ⊢
      simp only [List.length_singleton] at h2 ⊢
      omega

/-- Every produced row except possibly the last has exactly two buttons. -/
theorem chunkAux_dropLast_length (btns row : List Btn) (hrow : row.length ≤ 1) :
    ∀ r ∈ (chunkAux row btns).dropLast, r.length = 2 := by
  induction btns generalizing row with
  | nil =>
    intro r hr
    by_cases h : row.isEmpty = true
    · rw [List.isEmpty_iff] at h
      simp [chunkAux, h] at hr
    · simp only [chunkAux, if_neg h, List.dropLast_single] at hr
      cases hr
  | cons b rest ih =>
    intro r hr
    rw [show chunkAux row (b :: rest) = (if (row ++ [b]).length = 2 then
      (row ++ [b]) :: chunkAux [] rest else chunkAux (row ++ [b]) rest) from rfl] at hr
    split_ifs at hr with h2
    · cases hc : chunkAux [] rest with
      | nil =>
        rw [hc, List.dropLast_single] at hr
        cases hr
      | cons c cs =>
        rw [hc, List.dropLast_cons₂] at hr
        rcases List.mem_cons.mp hr with h | h
        · subst h
          exact h2
        · refine ih [] (by simp) r ?_
          rw [hc]
          exact h
    · refine ih (row ++ [b]) ?_ r hr
      rw [List.length_append] at h2 ⊢
      simp only [List.length_singleton] at h2 ⊢
      omega

/-- C5 counterexample: on a 13-format list, `sort.Slice` (pdqsort) is not
stable: the formats with paths "b" and "B" have equal uppercased paths and
appear in this original order, but the rendered buttons (and the sorted
list) place "B" before "b" — the pivot swap of the partition step reorders
the tie.  This refutes the claimed stable order for every format list. -/
theorem detail_sort_unstable :
    fmtKey ⟨"b".data, []⟩ = fmtKey ⟨"B".data, []⟩ ∧
    (fmts13.filter (fun o => decide (fmtKey o = "B".data))).map
        BookFormatOption.path = ["b".data, "B".data] ∧
    ((sortSliceFormats fmts13).filter (fun o => decide (fmtKey o = "B".data))).map
        BookFormatOption.path = ["B".data, "b".data] ∧
    ((detailRows ("1".data) fmts13).flatten.map Btn.data).filter
        (fun d => decide (d = "dl:1:B".data ∨ d = "dl:1:b".data)) =
      ["dl:1:B".data, "dl:1:b".data] := by
  refine ⟨by decide, by decide, by decide, by decide⟩

/-- C5 amended: for a non-empty fetched format list of at most 12 formats
(the range where Go's `sort.Slice` runs its stable insertion-sort path),
the rendered keyboard flattens to the buttons of the sorted list, which is
a permutation of the fetched formats, sorted ascending by uppercased
trimmed format path, with ties keeping their original relative order;
buttons are rendered two per row with a trailing odd button alone on the
last row.  For longer lists the sort is not stable (see the
counterexample).  In particular paths "fb2" and "epub" render EPUB before
FB2. -/
theorem detail_sort_spec :
    (∀ (bookID : GoStr) (formats : List BookFormatOption),
      formats ≠ [] → formats.length ≤ 12 →
      ((detailRows bookID formats).flatten =
          (isortL formats).map (formatBtn bookID) ∧
        List.Perm (isortL formats) formats ∧
        (isortL formats).Pairwise keyLe ∧
        (∀ k : GoStr, (isortL formats).filter (fun o => decide (fmtKey o = k)) =
          formats.filter (fun o => decide (fmtKey o = k))) ∧
        (∀ r ∈ detailRows bookID formats, r.length = 1 ∨ r.length = 2) ∧
        (∀ r ∈ (detailRows bookID formats).dropLast, r.length = 2))) ∧
    detailRows ("1".data) [⟨"fb2".data, []⟩, ⟨"epub".data, []⟩] =
      [[formatBtn ("1".data) ⟨"epub".data, []⟩,
        formatBtn ("1".data) ⟨"fb2".data, []⟩]] := by
  constructor
  · intro bookID formats hne hlen
    have hempty : formats.isEmpty = false := by
      cases formats with
      | nil => exact absurd rfl hne
      | cons f t => rfl
    have hrows : detailRows bookID formats =
        chunkRows ((isortL formats).map (formatBtn bookID)) := by
      unfold detailRows
      rw [hempty]
      simp only [Bool.false_eq_true, if_false]
      rw [sortSliceFormats_small formats hlen]
    refine ⟨?_, isortL_perm formats, isortL_sorted formats, fun k => isortL_filter k formats,
      ?_, ?_⟩
    · rw [hrows]
      unfold chunkRows
      rw [chunkAux_flatten]
      simp
    · rw [hrows]
      exact chunkAux_mem_length _ [] (by simp)
    · rw [hrows]
      exact chunkAux_dropLast_length _ [] (by simp)
  · decide

/-- C5 amended witness: a concrete two-format list. -/
theorem detail_sort_spec_witness :
    (([⟨"fb2".data, []⟩, ⟨"epub".data, []⟩] : List BookFormatOption) ≠ [] ∧
      ([⟨"fb2".data, []⟩, ⟨"epub".data, []⟩] : List BookFormatOption).length ≤ 12) ∧
    ((detailRows ("9".data) [⟨"fb2".data, []⟩, ⟨"epub".data, []⟩]).flatten =
        (isortL [⟨"fb2".data, []⟩, ⟨"epub".data, []⟩]).map (formatBtn ("9".data)) ∧
      List.Perm (isortL [⟨"fb2".data, []⟩, ⟨"epub".data, []⟩])
        [⟨"fb2".data, []⟩, ⟨"epub".data, []⟩] ∧
      (isortL [⟨"fb2".data, []⟩, ⟨"epub".data, []⟩]).Pairwise keyLe ∧
      (∀ k : GoStr,
        (isortL [⟨"fb2".data, []⟩, ⟨"epub".data, []⟩]).filter
            (fun o => decide (fmtKey o = k)) =
          ([⟨"fb2".data, []⟩, ⟨"epub".data, []⟩] : List BookFormatOption).filter
            (fun o => decide (fmtKey o = k))) ∧
      (∀ r ∈ detailRows ("9".data) [⟨"fb2".data, []⟩, ⟨"epub".data, []⟩],
        r.length = 1 ∨ r.length = 2) ∧
      (∀ r ∈ (detailRows ("9".data) [⟨"fb2".data, []⟩, ⟨"epub".data, []⟩]).dropLast,
        r.length = 2)) :=
  ⟨⟨by decide, by decide⟩,
    detail_sort_spec.1 ("9".data) [⟨"fb2".data, []⟩, ⟨"epub".data, []⟩]
      (by decide) (by decide)⟩

end Tgbot
